import Mathlib

/-!
Verification development for the Monte-Carlo backtest simulator.

The definitions below are a shallow embedding of the simulator's source:
`createPRNG` / `runSimulationBatch` / `calculateStatistics` (utils/monteCarlo),
the incremental Monte-Carlo controller loop (the `runBatch` loop of the app
component) and `runPropFirmSimulation` (utils/propFirmLogic).

Modelling conventions:
* JavaScript 32-bit integer operations (`|0`, `Math.imul`, `>>>`, `^`, `|`)
  are modelled on unsigned residues, i.e. natural numbers below `2^32`,
  with explicit `% 2^32` where the source truncates.
* JavaScript floating-point arithmetic on equities and statistics is
  idealised as exact rational arithmetic (`ℚ`); `Math.sqrt` and `Math.pow`
  are idealised as the real functions, so fields produced through them
  live in `ℝ`.
* A seeded generator closure `() => number` is modelled as a pure stream
  `ℕ → ℚ` together with an explicit call-position counter that every
  stateful consumer threads through.
-/

/-- `2^32`, the modulus of all 32-bit operations in the PRNG. -/
def U32 : ℕ := 4294967296

/-- JavaScript `seed | 0` on an arbitrary integer seed: the unsigned residue
of the seed modulo `2^32` (two's-complement bit pattern). -/
def toUint32 (z : ℤ) : ℕ := (z % (U32 : ℤ)).toNat

/-- One step of the Mulberry32 generator of `createPRNG`:
`state = state + 0x6D2B79F5 | 0;
 let t = Math.imul(state ^ state >>> 15, 1 | state);
 t = t + Math.imul(t ^ t >>> 7, 61 | t) ^ t;
 return ((t ^ t >>> 14) >>> 0) / 4294967296`.
Returns the advanced state together with the 32-bit output word. -/
def mulberryT1 (s : ℕ) : ℕ := ((s ^^^ (s >>> 15)) * (1 ||| s)) % U32

def mulberryT2 (s : ℕ) : ℕ :=
  ((mulberryT1 s + ((mulberryT1 s ^^^ (mulberryT1 s >>> 7)) * (61 ||| mulberryT1 s)) % U32) % U32)
    ^^^ mulberryT1 s

def mulberryScramble (s : ℕ) : ℕ := mulberryT2 s ^^^ (mulberryT2 s >>> 14)

def mulberry32Next (state : ℕ) : ℕ × ℕ :=
  ((state + 0x6D2B79F5) % U32, mulberryScramble ((state + 0x6D2B79F5) % U32))

/-- Internal Mulberry32 state before the `n`-th call of the generator
built by `createPRNG seed`. -/
def mulberryState (seed : ℤ) : ℕ → ℕ
  | 0 => toUint32 seed
  | n + 1 => (mulberry32Next (mulberryState seed n)).1

/-- The 32-bit output word of the `n`-th call of `createPRNG seed`. -/
def prngWord (seed : ℤ) (n : ℕ) : ℕ := (mulberry32Next (mulberryState seed n)).2

/-- The value returned by the `n`-th call of the generator built by
`createPRNG seed`: the output word normalised by `2^32`. -/
def prngFloat (seed : ℤ) (n : ℕ) : ℚ := (prngWord seed n : ℚ) / (U32 : ℚ)

/-- The full output stream of `createPRNG seed`. -/
def createPRNG (seed : ℤ) : ℕ → ℚ := prngFloat seed

/-- Risk model selector of the simulation config. -/
inductive RiskModel : Type
  | fixed_pnl : RiskModel
  | percent_equity : RiskModel
deriving DecidableEq, Repr

/-- One historical trade (the fields the engine reads). -/
structure Trade where
  pnl : ℚ
  pnlPercent : ℚ
deriving DecidableEq, Repr

/-- The Monte-Carlo simulation configuration. -/
structure SimulationConfig where
  initialEquity : ℚ
  numSimulations : ℕ
  tradesPerSimulation : ℕ
  seed : ℤ
  convergenceTolerance : ℚ
  confidenceLevel : ℚ
  riskModel : RiskModel
deriving DecidableEq, Repr

/-- `Math.floor(rng() * pnlPool.length)` as a list index. -/
def drawIndex (u : ℚ) (len : ℕ) : ℕ := (⌊u * (len : ℚ)⌋).toNat

/-- Mutable per-run accumulator of the trade loop of `runSimulationBatch`,
together with the generator call position `k`. -/
structure RunAcc where
  currentEquity : ℚ
  peakEquity : ℚ
  maxDrawdown : ℚ
  winCount : ℕ
  grossProfit : ℚ
  grossLoss : ℚ
  equityCurve : List ℚ
  currentConsecutiveLosses : ℕ
  maxConsecutiveLosses : ℕ
  simulationPnls : List ℚ
  isRuined : Bool
  k : ℕ
deriving Repr

/-- Accumulator at loop entry: equity at `initialEquity`,
curve `[initialEquity]`, everything else zeroed. -/
def initAcc (initialEquity : ℚ) (k : ℕ) : RunAcc :=
  { currentEquity := initialEquity
    peakEquity := initialEquity
    maxDrawdown := 0
    winCount := 0
    grossProfit := 0
    grossLoss := 0
    equityCurve := [initialEquity]
    currentConsecutiveLosses := 0
    maxConsecutiveLosses := 0
    simulationPnls := []
    isRuined := false
    k := k }

/-- One iteration of the inner trade loop of `runSimulationBatch`:
draw an index, apply the outcome under the risk model, push the new equity
and P&L, update peak/drawdown, win/loss and streak accumulators, and flag
ruin when equity falls to `≤ 0`. -/
def tradeStep (pool : List ℚ) (riskModel : RiskModel) (rng : ℕ → ℚ) (s : RunAcc) : RunAcc :=
  let u := rng s.k
  let tradeValue := pool.getD (drawIndex u pool.length) 0
  let tradePnl : ℚ :=
    match riskModel with
    | RiskModel.percent_equity => s.currentEquity * tradeValue
    | RiskModel.fixed_pnl => tradeValue
  let eq := s.currentEquity + tradePnl
  let peak := if eq > s.peakEquity then eq else s.peakEquity
  let dd := peak - eq
  { currentEquity := eq
    peakEquity := peak
    maxDrawdown := if dd > s.maxDrawdown then dd else s.maxDrawdown
    winCount := if tradePnl > 0 then s.winCount + 1 else s.winCount
    grossProfit := if tradePnl > 0 then s.grossProfit + tradePnl else s.grossProfit
    grossLoss := if tradePnl > 0 then s.grossLoss else s.grossLoss + |tradePnl|
    equityCurve := s.equityCurve ++ [eq]
    currentConsecutiveLosses := if tradePnl > 0 then 0 else s.currentConsecutiveLosses + 1
    maxConsecutiveLosses :=
      if tradePnl > 0 then s.maxConsecutiveLosses
      else max s.maxConsecutiveLosses (s.currentConsecutiveLosses + 1)
    simulationPnls := s.simulationPnls ++ [tradePnl]
    isRuined := if eq ≤ 0 then true else s.isRuined
    k := s.k + 1 }

/-- The inner trade loop, run for (at most) the configured number of trades;
after a trade that leaves `currentEquity ≤ 0` the loop breaks early under
`percent_equity` (the source additionally tests `currentEquity ≤ 1`, which is
subsumed inside the `≤ 0` branch). -/
def tradeLoop (pool : List ℚ) (riskModel : RiskModel) (rng : ℕ → ℚ) : ℕ → RunAcc → RunAcc
  | 0, s => s
  | fuel + 1, s =>
    let s1 := tradeStep pool riskModel rng s
    if s1.currentEquity ≤ 0 ∧ riskModel = RiskModel.percent_equity ∧ s1.currentEquity ≤ 1
    then s1
    else tradeLoop pool riskModel rng fuel s1

/-- The raw accumulator produced by one simulated run. -/
def runCore (pool : List ℚ) (cfg : SimulationConfig) (rng : ℕ → ℚ) (k : ℕ) : RunAcc :=
  tradeLoop pool cfg.riskModel rng cfg.tradesPerSimulation (initAcc cfg.initialEquity k)

/-- One step of the second-pass percentage-drawdown scan over the whole
equity curve: carry `(localPeak, maxDDPercent)`. -/
def ddPercentStep (p : ℚ × ℚ) (eq : ℚ) : ℚ × ℚ :=
  let peak := if eq > p.1 then eq else p.1
  let dd := (peak - eq) / peak
  (peak, if dd > p.2 then dd else p.2)

/-- The second pass of `runSimulationBatch`: maximum percentage drawdown of
an equity curve, peak seeded with the initial equity. Rational division is
total (`x / 0 = 0`), so this model is faithful only while the running peak
is non-zero; the JS-exact scan below keeps the `Infinity`/`NaN` outcomes. -/
def maxDDPercent (initialEquity : ℚ) (curve : List ℚ) : ℚ :=
  (curve.foldl ddPercentStep (initialEquity, 0)).2

/-- IEEE-754 value classes produced by the unguarded drawdown division: a
finite number (idealised as an exact rational), `+Infinity`, `-Infinity`
or `NaN`. -/
inductive JsNum where
  | fin (q : ℚ)
  | posInf
  | negInf
  | nan

/-- JS division of two (idealised) finite numbers: a zero denominator gives
an infinity signed by the numerator, or `NaN` for `0 / 0` (ℚ has a single
zero, read as JS `+0`); the exact rational quotient otherwise. -/
def jsDiv (num den : ℚ) : JsNum :=
  if den = 0 then
    if 0 < num then JsNum.posInf
    else if num < 0 then JsNum.negInf
    else JsNum.nan
  else JsNum.fin (num / den)

/-- JS `>` on the values the drawdown scan carries: every comparison with
`NaN` is false, `Infinity` exceeds every finite value and `-Infinity`. -/
def jsGt : JsNum → JsNum → Bool
  | JsNum.fin a, JsNum.fin b => decide (b < a)
  | JsNum.fin _, JsNum.negInf => true
  | JsNum.posInf, JsNum.fin _ => true
  | JsNum.posInf, JsNum.negInf => true
  | _, _ => false

/-- One step of the drawdown scan exactly as the source computes it: the
division `(localPeak - eq) / localPeak` is not guarded against a zero peak,
so it can produce `Infinity`; the `dd > maxDDPercent` test then follows JS
comparison semantics (`NaN` never wins the comparison). -/
def ddPercentStepJs (p : ℚ × JsNum) (eq : ℚ) : ℚ × JsNum :=
  let peak := if eq > p.1 then eq else p.1
  let dd := jsDiv (peak - eq) peak
  (peak, if jsGt dd p.2 then dd else p.2)

/-- The drawdown scan of `runSimulationBatch` under exact JS semantics:
`maxDDPercent` starts at `0` and a zero running peak is not guarded, so the
scan can end at `+Infinity`. -/
def maxDDPercentJs (initialEquity : ℚ) (curve : List ℚ) : JsNum :=
  (curve.foldl ddPercentStepJs (initialEquity, JsNum.fin 0)).2

/-- `stdDev === 0 ? 0 : num / stdDev` where `stdDev = Math.sqrt devSq`:
the guarded ratio used for Sharpe and Sortino. -/
noncomputable def mkRatio (num devSq : ℚ) : ℝ :=
  if Real.sqrt (devSq : ℝ) = 0 then 0 else (num : ℝ) / Real.sqrt (devSq : ℝ)

/-- `avgPnl` of a finished run: `(currentEquity - initialEquity) / equityCurve.length`. -/
def runAvg (initialEquity : ℚ) (s : RunAcc) : ℚ :=
  (s.currentEquity - initialEquity) / (s.equityCurve.length : ℚ)

/-- `sumSqDiff` of a finished run: squared deviations of the realised P&L
values from `avgPnl`. -/
def runSumSqDiff (initialEquity : ℚ) (s : RunAcc) : ℚ :=
  (s.simulationPnls.map (fun p => (p - runAvg initialEquity s) ^ 2)).sum

/-- `sumSqDownside` of a finished run: squares of the negative P&L values. -/
def runSumSqDown (s : RunAcc) : ℚ :=
  ((s.simulationPnls.filter (fun p => p < 0)).map (fun p => p ^ 2)).sum

/-- The per-run record produced by `runSimulationBatch`. -/
structure SimulationResult where
  id : ℕ
  equityCurve : List ℚ
  finalEquity : ℚ
  maxDrawdown : ℚ
  maxDrawdownPercent : ℚ
  winRate : ℚ
  profitFactor : ℚ
  maxConsecutiveLosses : ℕ
  isRuined : Bool
  sharpeRatio : ℝ
  sortinoRatio : ℝ

/-- One simulated trader of `runSimulationBatch`: run the trade loop and
reduce the accumulator to a `SimulationResult`; returns the result together
with the advanced generator position. -/
noncomputable def simulateOne (pool : List ℚ) (cfg : SimulationConfig) (rng : ℕ → ℚ)
    (id k : ℕ) : SimulationResult × ℕ :=
  let s := runCore pool cfg rng k
  ({ id := id
     equityCurve := s.equityCurve
     finalEquity := s.currentEquity
     maxDrawdown := s.maxDrawdown
     maxDrawdownPercent := maxDDPercent cfg.initialEquity s.equityCurve * 100
     winRate := ((s.winCount : ℚ) / (s.simulationPnls.length : ℚ)) * 100
     profitFactor := if s.grossLoss = 0 then s.grossProfit else s.grossProfit / s.grossLoss
     maxConsecutiveLosses := s.maxConsecutiveLosses
     isRuined := s.isRuined
     sharpeRatio :=
       mkRatio (runAvg cfg.initialEquity s) (runSumSqDiff cfg.initialEquity s / (s.simulationPnls.length : ℚ))
     sortinoRatio :=
       mkRatio (runAvg cfg.initialEquity s) (runSumSqDown s / (s.simulationPnls.length : ℚ)) },
   s.k)

/-- The batch loop of `runSimulationBatch`: `batchSize` consecutive runs with
ids `startId, startId+1, …`, threading the generator position. -/
noncomputable def batchLoop (pool : List ℚ) (cfg : SimulationConfig) (rng : ℕ → ℚ) :
    ℕ → ℕ → ℕ → List SimulationResult × ℕ
  | 0, _, k => ([], k)
  | c + 1, id, k =>
    let r := simulateOne pool cfg rng id k
    let rest := batchLoop pool cfg rng c (id + 1) r.2
    (r.1 :: rest.1, rest.2)

/-- `runSimulationBatch(trades, config, batchSize, startId, randomGenerator)`:
build the P&L pool according to the risk model, return `[]` on an empty pool,
otherwise produce `batchSize` results. The generator is the stream `rng`
starting at call position `k`; the advanced position is returned. -/
noncomputable def runSimulationBatch (trades : List Trade) (cfg : SimulationConfig)
    (batchSize startId : ℕ) (rng : ℕ → ℚ) (k : ℕ) : List SimulationResult × ℕ :=
  let pnlPool := trades.map (fun t =>
    match cfg.riskModel with
    | RiskModel.percent_equity => t.pnlPercent / 100
    | RiskModel.fixed_pnl => t.pnl)
  if pnlPool.length = 0 then ([], k)
  else batchLoop pnlPool cfg rng batchSize startId k

/-- Nearest-rank percentile lookup of `calculateStatistics`:
`sortedArr[Math.min(Math.floor(percentile * N), N - 1)]`. -/
def getPercentile {α : Type} [Inhabited α] (sortedArr : List α) (percentile : ℚ) : α :=
  let index : ℤ := ⌊percentile * (sortedArr.length : ℚ)⌋
  sortedArr.getD (min index ((sortedArr.length : ℤ) - 1)).toNat default

/-- The ascending sort used by the statistics aggregator on rational data
(`.sort((a, b) => a - b)`). -/
def sortQ (l : List ℚ) : List ℚ := List.insertionSort (fun a b => a ≤ b) l

/-- The ascending sort used by the statistics aggregator on the real-valued
per-run ratios. -/
noncomputable def sortR (l : List ℝ) : List ℝ := List.insertionSort (fun a b => a ≤ b) l

/-- `calculateCAGR` of the statistics aggregator: guarded to 0 on
non-positive initial equity, final value or duration, otherwise
`(Math.pow(v / initialEquity, 1 / years) - 1) * 100`. -/
noncomputable def calculateCAGR (initialEquity durationYears finalValue : ℚ) : ℝ :=
  if initialEquity ≤ 0 ∨ finalValue ≤ 0 ∨ durationYears ≤ 0 then 0
  else (((finalValue / initialEquity : ℚ) : ℝ) ^ ((1 : ℝ) / ((durationYears : ℚ) : ℝ)) - 1) * 100

/-- The aggregate statistics record. -/
structure Statistics where
  medianEquity : ℚ
  bestEquity : ℚ
  worstEquity : ℚ
  medianDrawdown : ℚ
  worstDrawdown : ℚ
  ruinProbability : ℚ
  cagr95 : ℝ
  cagr05 : ℝ
  cagrMedian : ℝ
  var95 : ℚ
  var99 : ℚ
  customConfidenceLevel : ℚ
  varCustom : ℚ
  cagrCustom : ℝ
  sharpeRatio : ℝ
  sortinoRatio : ℝ
  sp500Benchmark : ℚ
  cagrVsSP500 : ℝ

/-- `calculateStatistics(results, initialEquity, durationYears, confidenceLevel)`. -/
noncomputable def calculateStatistics (results : List SimulationResult) (initialEquity : ℚ)
    (durationYears : ℚ) (confidenceLevel : ℚ) : Statistics :=
  match results with
  | [] =>
    { medianEquity := 0, bestEquity := 0, worstEquity := 0, medianDrawdown := 0
      worstDrawdown := 0, ruinProbability := 0, cagr95 := 0, cagr05 := 0, cagrMedian := 0
      var95 := 0, var99 := 0, customConfidenceLevel := confidenceLevel, varCustom := 0
      cagrCustom := 0, sharpeRatio := 0, sortinoRatio := 0, sp500Benchmark := 21 / 2
      cagrVsSP500 := 0 }
  | r0 :: _ =>
    let finalEquities := sortQ (results.map SimulationResult.finalEquity)
    let drawdowns := sortQ (results.map SimulationResult.maxDrawdownPercent)
    let ruinedCount := (results.filter (fun r => r.isRuined)).length
    let equity05 := getPercentile finalEquities (5 / 100)
    let equity50 := getPercentile finalEquities (1 / 2)
    let equity95 := getPercentile finalEquities (95 / 100)
    let alpha := 1 - confidenceLevel / 100
    let sortedSharpes := sortR (results.map SimulationResult.sharpeRatio)
    let sortedSortinos := sortR (results.map SimulationResult.sortinoRatio)
    let tradesPerSim : ℚ := (r0.equityCurve.length : ℚ) - 1
    let tradesPerYear : ℚ := if durationYears > 0 then tradesPerSim / durationYears else tradesPerSim
    let annualFactor : ℝ := Real.sqrt ((tradesPerYear : ℚ) : ℝ)
    let cagrMedian := calculateCAGR initialEquity durationYears equity50
    { medianEquity := equity50
      bestEquity := finalEquities.getD (finalEquities.length - 1) 0
      worstEquity := finalEquities.getD 0 0
      medianDrawdown := getPercentile drawdowns (1 / 2)
      worstDrawdown := drawdowns.getD (drawdowns.length - 1) 0
      ruinProbability := ((ruinedCount : ℚ) / (results.length : ℚ)) * 100
      cagr05 := calculateCAGR initialEquity durationYears equity05
      cagrMedian := cagrMedian
      cagr95 := calculateCAGR initialEquity durationYears equity95
      var95 := getPercentile drawdowns (95 / 100)
      var99 := getPercentile drawdowns (99 / 100)
      customConfidenceLevel := confidenceLevel
      varCustom := getPercentile drawdowns (confidenceLevel / 100)
      cagrCustom := calculateCAGR initialEquity durationYears (getPercentile finalEquities alpha)
      sharpeRatio := getPercentile sortedSharpes (1 / 2) * annualFactor
      sortinoRatio := getPercentile sortedSortinos (1 / 2) * annualFactor
      sp500Benchmark := 21 / 2
      cagrVsSP500 := cagrMedian - ((21 / 2 : ℚ) : ℝ) }

/-- Status of the incremental Monte-Carlo controller. -/
inductive SimStatus : Type
  | idle : SimStatus
  | running : SimStatus
  | paused : SimStatus
  | completed : SimStatus
  | converged : SimStatus
deriving DecidableEq, Repr

/-- The controller's batch size (`BATCH_SIZE = 50`). -/
def BATCH_SIZE : ℕ := 50

/-- State carried by the controller's `runBatch` loop: the accumulated
results, the previous running mean of final equity, the status and the
generator call position. -/
structure CtrlState where
  results : List SimulationResult
  prevMean : ℚ
  status : SimStatus
  k : ℕ

/-- Running mean of `finalEquity` over a result collection. -/
def meanOf (results : List SimulationResult) : ℚ :=
  (results.map SimulationResult.finalEquity).sum / (results.length : ℚ)

/-- One `runBatch` invocation of the controller: complete when the count is
reached, otherwise run one bounded batch, then (once more than two batches
of results have accumulated) run the convergence check. -/
noncomputable def ctrlStep (trades : List Trade) (cfg : SimulationConfig) (rng : ℕ → ℚ)
    (s : CtrlState) : CtrlState :=
  if s.results.length ≥ cfg.numSimulations then
    { s with status := SimStatus.completed }
  else
    let count := min BATCH_SIZE (cfg.numSimulations - s.results.length)
    let batch := runSimulationBatch trades cfg count s.results.length rng s.k
    let results := s.results ++ batch.1
    if results.length > BATCH_SIZE * 2 then
      let currentMean := meanOf results
      if s.prevMean ≠ 0 ∧ cfg.convergenceTolerance > 0 ∧
          |(currentMean - s.prevMean) / s.prevMean| * 100 < cfg.convergenceTolerance then
        { results := results, prevMean := s.prevMean, status := SimStatus.converged, k := batch.2 }
      else
        { results := results, prevMean := currentMean, status := SimStatus.running, k := batch.2 }
    else
      { results := results, prevMean := s.prevMean, status := SimStatus.running, k := batch.2 }

/-- The controller loop: repeat `ctrlStep` while the status stays `running`
(fuel-bounded; the fuel used below always dominates the iteration count). -/
noncomputable def ctrlLoop (trades : List Trade) (cfg : SimulationConfig) (rng : ℕ → ℚ) :
    ℕ → CtrlState → CtrlState
  | 0, s => s
  | fuel + 1, s =>
    if s.status = SimStatus.running then
      let s1 := ctrlStep trades cfg rng s
      if s1.status = SimStatus.running then ctrlLoop trades cfg rng fuel s1 else s1
    else s

/-- The initial controller state of a fresh start: no results, zero previous
mean, `running`, generator at position 0. -/
def ctrlInit : CtrlState :=
  { results := [], prevMean := 0, status := SimStatus.running, k := 0 }

/-- A full controller session: fresh PRNG from the configured seed, loop
until completion or convergence. -/
noncomputable def runMonteCarloController (trades : List Trade) (cfg : SimulationConfig) : CtrlState :=
  ctrlLoop trades cfg (createPRNG cfg.seed) (cfg.numSimulations + 1) ctrlInit

/-- The prop-firm rule configuration. -/
structure PropFirmConfig where
  accountSize : ℚ
  maxDailyLoss : ℚ
  maxTotalLoss : ℚ
  profitTargetEval : ℚ
  maxDailyProfitEval : ℚ
  expressPayoutThreshold : ℚ
  expressPayoutsRequired : ℚ
  expressDaysForPayout : ℚ
  tradesPerDay : ℚ
deriving DecidableEq, Repr

/-- The three career phases. -/
inductive Phase : Type
  | EVAL : Phase
  | EXPRESS : Phase
  | LIVE : Phase
deriving DecidableEq, Repr

/-- `Math.round`: floor of `x + 1/2`. -/
def jsRound (q : ℚ) : ℤ := ⌊q + 1 / 2⌋

/-- Sum of `n` consecutive pool draws starting at generator position `k`. -/
def daySum (pool : List ℚ) (rng : ℕ → ℚ) : ℕ → ℕ → ℚ
  | 0, _ => 0
  | n + 1, k => pool.getD (drawIndex (rng k) pool.length) 0 + daySum pool rng n (k + 1)

/-- `simulateDay`: a randomised trade count
(`Math.max(1, Math.round(tradesPerDay * (0.5 + rng())))`) of pool draws,
summed to the day's P&L; returns the P&L and the advanced generator position. -/
def simulateDay (pool : List ℚ) (rng : ℕ → ℚ) (tradesPerDay : ℚ) (k : ℕ) : ℚ × ℕ :=
  let numTrades := max 1 (jsRound (tradesPerDay * (1 / 2 + rng k))).toNat
  (daySum pool rng numTrades (k + 1), k + 1 + numTrades)

/-- Global aggregators of `runPropFirmSimulation`. -/
structure PFAgg where
  evalAttempts : ℕ
  evalBlown : ℕ
  evalPassed : ℕ
  expressAttempts : ℕ
  expressBlown : ℕ
  expressPayoutsTotal : ℕ
  liveReached : ℕ
  blownAfterFirstPayout : ℕ
  trialsToExpress : List ℕ
  trialsToFirstPayout : List ℕ
  trialsToLive : List ℕ
deriving DecidableEq, Repr

/-- The all-zero aggregate. -/
def PFAgg.init : PFAgg :=
  { evalAttempts := 0, evalBlown := 0, evalPassed := 0, expressAttempts := 0
    expressBlown := 0, expressPayoutsTotal := 0, liveReached := 0, blownAfterFirstPayout := 0
    trialsToExpress := [], trialsToFirstPayout := [], trialsToLive := [] }

/-- Per-trader career state of `runPropFirmSimulation`. -/
structure Career where
  phase : Phase
  balance : ℚ
  evalProfitProgress : ℚ
  expressDaysAboveThreshold : ℕ
  expressPayoutsCount : ℕ
  totalAttempts : ℕ
  day : ℕ
  careerActive : Bool
  hasReachedExpress : Bool
  hasReachedFirstPayout : Bool
  hasReachedLive : Bool
  attemptsToReachExpress : ℕ
  attemptsToReachFirstPayout : ℕ
  attemptsToReachLive : ℕ
deriving DecidableEq, Repr

/-- A fresh career at the top of the trader loop (the pre-loop
`evalAttempts++; attemptsToReach*++` have already put the attempt counters
at 1). -/
def initCareer (cfg : PropFirmConfig) : Career :=
  { phase := Phase.EVAL, balance := cfg.accountSize, evalProfitProgress := 0
    expressDaysAboveThreshold := 0, expressPayoutsCount := 0, totalAttempts := 1
    day := 0, careerActive := true, hasReachedExpress := false
    hasReachedFirstPayout := false, hasReachedLive := false
    attemptsToReachExpress := 1, attemptsToReachFirstPayout := 1, attemptsToReachLive := 1 }

/-- Blow-up handling while in EVAL (shared by the daily-loss and max-loss
checks): restart the career at EVAL. -/
def blowupEval (cfg : PropFirmConfig) (c : Career) (agg : PFAgg) : Career × PFAgg :=
  ({ c with
      phase := Phase.EVAL
      balance := cfg.accountSize
      evalProfitProgress := 0
      totalAttempts := c.totalAttempts + 1
      attemptsToReachExpress :=
        if c.hasReachedExpress then c.attemptsToReachExpress else c.attemptsToReachExpress + 1
      attemptsToReachFirstPayout :=
        if c.hasReachedFirstPayout then c.attemptsToReachFirstPayout else c.attemptsToReachFirstPayout + 1
      attemptsToReachLive :=
        if c.hasReachedLive then c.attemptsToReachLive else c.attemptsToReachLive + 1 },
   { agg with
      evalBlown := agg.evalBlown + 1
      evalAttempts := agg.evalAttempts + 1 })

/-- Blow-up handling while in EXPRESS: full career restart at EVAL,
recording a post-payout blow-up when a payout had been reached. -/
def blowupExpress (cfg : PropFirmConfig) (c : Career) (agg : PFAgg) : Career × PFAgg :=
  ({ c with
      phase := Phase.EVAL
      balance := cfg.accountSize
      evalProfitProgress := 0
      expressPayoutsCount := 0
      expressDaysAboveThreshold := 0
      totalAttempts := c.totalAttempts + 1
      attemptsToReachFirstPayout :=
        if c.hasReachedFirstPayout then c.attemptsToReachFirstPayout else c.attemptsToReachFirstPayout + 1
      attemptsToReachLive :=
        if c.hasReachedLive then c.attemptsToReachLive else c.attemptsToReachLive + 1 },
   { agg with
      expressBlown := agg.expressBlown + 1
      blownAfterFirstPayout :=
        if c.hasReachedFirstPayout then agg.blownAfterFirstPayout + 1 else agg.blownAfterFirstPayout
      evalAttempts := agg.evalAttempts + 1
      expressAttempts := agg.expressAttempts + 1 })

/-- EVAL phase logic of one surviving day: cap the day's positive
contribution at `maxDailyProfitEval`, accumulate progress, and promote to
EXPRESS on reaching the profit target. -/
def evalPhaseDay (cfg : PropFirmConfig) (dailyPnL : ℚ) (c : Career) (agg : PFAgg) :
    Career × PFAgg :=
  let contribution := if dailyPnL > cfg.maxDailyProfitEval then cfg.maxDailyProfitEval else dailyPnL
  let progress := c.evalProfitProgress + contribution
  if progress ≥ cfg.profitTargetEval then
    ({ c with
        phase := Phase.EXPRESS
        balance := cfg.accountSize
        evalProfitProgress := 0
        expressDaysAboveThreshold := 0
        expressPayoutsCount := 0
        hasReachedExpress := true },
     { agg with
        evalPassed := agg.evalPassed + 1
        expressAttempts := agg.expressAttempts + 1
        trialsToExpress :=
          if c.hasReachedExpress then agg.trialsToExpress
          else agg.trialsToExpress ++ [c.attemptsToReachExpress] })
  else
    ({ c with evalProfitProgress := progress }, agg)

/-- EXPRESS phase logic of one surviving day: count days at or above the
payout threshold, issue a payout on reaching the required day count, and
promote to LIVE (ending the career) on reaching the required payouts. -/
def expressPhaseDay (cfg : PropFirmConfig) (dailyPnL : ℚ) (c : Career) (agg : PFAgg) :
    Career × PFAgg :=
  let days :=
    if dailyPnL ≥ cfg.expressPayoutThreshold then c.expressDaysAboveThreshold + 1
    else c.expressDaysAboveThreshold
  if (days : ℚ) ≥ cfg.expressDaysForPayout then
    let payouts := c.expressPayoutsCount + 1
    let c1 :=
      { c with
          expressDaysAboveThreshold := 0
          expressPayoutsCount := payouts
          hasReachedFirstPayout := true }
    let agg1 :=
      { agg with
          expressPayoutsTotal := agg.expressPayoutsTotal + 1
          trialsToFirstPayout :=
            if c.hasReachedFirstPayout then agg.trialsToFirstPayout
            else agg.trialsToFirstPayout ++ [c.attemptsToReachFirstPayout] }
    if (payouts : ℚ) ≥ cfg.expressPayoutsRequired then
      ({ c1 with phase := Phase.LIVE, careerActive := false, hasReachedLive := true },
       { agg1 with
          liveReached := agg1.liveReached + 1
          trialsToLive :=
            if c.hasReachedLive then agg1.trialsToLive
            else agg1.trialsToLive ++ [c.attemptsToReachLive] })
    else (c1, agg1)
  else
    ({ c with expressDaysAboveThreshold := days }, agg)

/-- One simulated day of a career: draw the day's P&L, run the daily-loss
check, apply the P&L to the balance, run the max-loss check, then the phase
logic. Returns the updated career, aggregate and generator position. -/
def pfDay (cfg : PropFirmConfig) (pool : List ℚ) (rng : ℕ → ℚ)
    (c : Career) (agg : PFAgg) (k : ℕ) : Career × PFAgg × ℕ :=
  let c0 := { c with day := c.day + 1 }
  let day := simulateDay pool rng cfg.tradesPerDay k
  let dailyPnL := day.1
  let k1 := day.2
  if dailyPnL ≤ -cfg.maxDailyLoss then
    match c0.phase with
    | Phase.EVAL => let r := blowupEval cfg c0 agg; (r.1, r.2, k1)
    | Phase.EXPRESS => let r := blowupExpress cfg c0 agg; (r.1, r.2, k1)
    | Phase.LIVE => (c0, agg, k1)
  else
    let c1 := { c0 with balance := c0.balance + dailyPnL }
    if c1.balance < cfg.accountSize - cfg.maxTotalLoss then
      match c1.phase with
      | Phase.EVAL => let r := blowupEval cfg c1 agg; (r.1, r.2, k1)
      | Phase.EXPRESS => let r := blowupExpress cfg c1 agg; (r.1, r.2, k1)
      | Phase.LIVE => (c1, agg, k1)
    else
      match c1.phase with
      | Phase.EVAL => let r := evalPhaseDay cfg dailyPnL c1 agg; (r.1, r.2, k1)
      | Phase.EXPRESS => let r := expressPhaseDay cfg dailyPnL c1 agg; (r.1, r.2, k1)
      | Phase.LIVE => (c1, agg, k1)

/-- Hard cap on simulated days per career (`MAX_CAREER_DAYS`). -/
def MAX_CAREER_DAYS : ℕ := 2000

/-- Hard cap on restarts per trader (`MAX_RESTARTS`). -/
def MAX_RESTARTS : ℕ := 100

/-- The career loop: run days while the career is active, the day cap is not
hit and the restart cap is not exceeded. -/
def pfLoop (cfg : PropFirmConfig) (pool : List ℚ) (rng : ℕ → ℚ) :
    ℕ → Career × PFAgg × ℕ → Career × PFAgg × ℕ
  | 0, x => x
  | fuel + 1, (c, agg, k) =>
    if c.careerActive = true ∧ c.day < MAX_CAREER_DAYS ∧ c.totalAttempts ≤ MAX_RESTARTS then
      pfLoop cfg pool rng fuel (pfDay cfg pool rng c agg k)
    else (c, agg, k)

/-- The trader loop: each trader starts a fresh career (counting one new
eval attempt) and runs it to termination. -/
def pfTraders (cfg : PropFirmConfig) (pool : List ℚ) (rng : ℕ → ℚ) :
    ℕ → PFAgg × ℕ → PFAgg × ℕ
  | 0, x => x
  | n + 1, (agg, k) =>
    let agg1 := { agg with evalAttempts := agg.evalAttempts + 1 }
    let r := pfLoop cfg pool rng MAX_CAREER_DAYS (initCareer cfg, agg1, k)
    pfTraders cfg pool rng n (r.2.1, r.2.2)

/-- The aggregate funnel statistics returned by `runPropFirmSimulation`. -/
structure PropFirmAggregateStats where
  totalTraders : ℕ
  evalAttempts : ℕ
  evalBlown : ℕ
  evalPassed : ℕ
  evalPassRate : ℚ
  expressAttempts : ℕ
  expressBlown : ℕ
  expressPayoutsTotal : ℕ
  expressPassRate : ℚ
  liveReached : ℕ
  liveReachedRate : ℚ
  avgTrialsToExpress : ℚ
  avgTrialsToFirstPayout : ℚ
  avgTrialsToLive : ℚ
  blownAfterFirstPayout : ℕ
deriving DecidableEq, Repr

/-- Average of a list of attempt counts, 0 when the list is empty. -/
def avgN (l : List ℕ) : ℚ :=
  if l.length > 0 then ((l.map (fun n => (n : ℚ))).sum) / (l.length : ℚ) else 0

/-- `runPropFirmSimulation(trades, config, numTraders, seed)`: advance
`numTraders` careers with a private Mulberry32 stream built from `seed`, and
reduce the aggregators to the funnel statistics. -/
def runPropFirmSimulation (trades : List Trade) (cfg : PropFirmConfig)
    (numTraders : ℕ) (seed : ℤ) : PropFirmAggregateStats :=
  let pnlPool := trades.map Trade.pnl
  let agg := (pfTraders cfg pnlPool (createPRNG seed) numTraders (PFAgg.init, 0)).1
  { totalTraders := numTraders
    evalAttempts := agg.evalAttempts
    evalBlown := agg.evalBlown
    evalPassed := agg.evalPassed
    evalPassRate :=
      if agg.evalAttempts > 0 then ((agg.evalPassed : ℚ) / (agg.evalAttempts : ℚ)) * 100 else 0
    expressAttempts := agg.expressAttempts
    expressBlown := agg.expressBlown
    expressPayoutsTotal := agg.expressPayoutsTotal
    expressPassRate :=
      if agg.expressAttempts > 0 then ((agg.liveReached : ℚ) / (agg.expressAttempts : ℚ)) * 100 else 0
    liveReached := agg.liveReached
    liveReachedRate := ((agg.liveReached : ℚ) / (numTraders : ℚ)) * 100
    avgTrialsToExpress := avgN agg.trialsToExpress
    avgTrialsToFirstPayout := avgN agg.trialsToFirstPayout
    avgTrialsToLive := avgN agg.trialsToLive
    blownAfterFirstPayout := agg.blownAfterFirstPayout }

/-- The nearest-rank percentile as worded by the specification: sort the
values ascending and read the element at index `⌊percentile * N⌋` clamped
to `[0, N-1]`, with no interpolation. -/
def nearestRankQ (vals : List ℚ) (p : ℚ) : ℚ :=
  let sorted := List.insertionSort (fun a b => a ≤ b) vals
  let index : ℤ := max 0 (min ⌊p * (vals.length : ℚ)⌋ ((vals.length : ℤ) - 1))
  sorted.getD index.toNat 0

/-- The nearest-rank percentile of the specification on real-valued data. -/
noncomputable def nearestRankR (vals : List ℝ) (p : ℚ) : ℝ :=
  let sorted := List.insertionSort (fun a b => a ≤ b) vals
  let index : ℤ := max 0 (min ⌊p * (vals.length : ℚ)⌋ ((vals.length : ℤ) - 1))
  sorted.getD index.toNat 0

/-- Per-trade P&L values recovered from an equity curve: the successive
differences of the curve. -/
def pnlsOfCurve (curve : List ℚ) : List ℚ :=
  List.zipWith (fun a b => a - b) curve.tail curve

/-- The claim's Sharpe formula: arithmetic mean of the realised P&L values
divided by their sample standard deviation, 0 when that deviation is 0. -/
noncomputable def claimSharpe (pnls : List ℚ) : ℝ :=
  let n : ℚ := (pnls.length : ℚ)
  let mean := pnls.sum / n
  let sampleVar := (pnls.map (fun p => (p - mean) ^ 2)).sum / (n - 1)
  let std := Real.sqrt (sampleVar : ℝ)
  if std = 0 then 0 else (mean : ℝ) / std

/-- The amended per-run Sharpe: the total realised P&L divided by the curve
length (one more than the trade count) is the centre; the deviation is the
population standard deviation of the P&L values about that centre; the
ratio degrades to 0 on a zero deviation. -/
noncomputable def amendedSharpe (curve : List ℚ) : ℝ :=
  let pnls := pnlsOfCurve curve
  let quasiMean := pnls.sum / (curve.length : ℚ)
  mkRatio quasiMean ((pnls.map (fun p => (p - quasiMean) ^ 2)).sum / (pnls.length : ℚ))

/-- The amended per-run Sortino: the same centre divided by the downside
deviation (losses squared against zero, averaged over the trade count);
0 on a zero deviation. -/
noncomputable def amendedSortino (curve : List ℚ) : ℝ :=
  let pnls := pnlsOfCurve curve
  let quasiMean := pnls.sum / (curve.length : ℚ)
  mkRatio quasiMean (((pnls.filter (fun p => p < 0)).map (fun p => p ^ 2)).sum / (pnls.length : ℚ))

lemma U32_eq_pow : U32 = 2 ^ 32 := by norm_num [U32]

lemma U32_cast_pos : (0 : ℚ) < (U32 : ℚ) := by norm_num [U32]

lemma U32_pos : 0 < U32 := by norm_num [U32]

lemma shiftRight_le_self (m n : ℕ) : m >>> n ≤ m := by
  rw [Nat.shiftRight_eq_div_pow]
  exact Nat.div_le_self _ _

lemma xor_lt_U32 {a b : ℕ} (ha : a < U32) (hb : b < U32) : a ^^^ b < U32 := by
  rw [U32_eq_pow] at ha hb ⊢
  exact Nat.xor_lt_two_pow ha hb

lemma mulberryT1_lt (s : ℕ) : mulberryT1 s < U32 := Nat.mod_lt _ U32_pos

lemma mulberryT2_lt (s : ℕ) : mulberryT2 s < U32 :=
  xor_lt_U32 (Nat.mod_lt _ U32_pos) (mulberryT1_lt s)

lemma mulberryScramble_lt (s : ℕ) : mulberryScramble s < U32 :=
  xor_lt_U32 (mulberryT2_lt s) (lt_of_le_of_lt (shiftRight_le_self _ _) (mulberryT2_lt s))

lemma mulberry32Next_out_lt (state : ℕ) : (mulberry32Next state).2 < U32 :=
  mulberryScramble_lt _

lemma prngWord_lt (seed : ℤ) (n : ℕ) : prngWord seed n < U32 :=
  mulberry32Next_out_lt _

lemma prngFloat_bounds (seed : ℤ) (n : ℕ) :
    0 ≤ prngFloat seed n ∧ prngFloat seed n < 1 := by
  constructor
  · unfold prngFloat
    positivity
  · unfold prngFloat
    rw [div_lt_one U32_cast_pos]
    exact_mod_cast prngWord_lt seed n

lemma createPRNG_in_unit (seed : ℤ) (n : ℕ) :
    0 ≤ createPRNG seed n ∧ createPRNG seed n < 1 :=
  prngFloat_bounds seed n

lemma mulberryState_congr {s1 s2 : ℤ} (h : s1 % (U32 : ℤ) = s2 % (U32 : ℤ)) (n : ℕ) :
    mulberryState s1 n = mulberryState s2 n := by
  induction n with
  | zero => simp [mulberryState, toUint32, h]
  | succ n ih => simp [mulberryState, ih]

lemma createPRNG_congr {s1 s2 : ℤ} (h : s1 % (U32 : ℤ) = s2 % (U32 : ℤ)) (n : ℕ) :
    createPRNG s1 n = createPRNG s2 n := by
  unfold createPRNG prngFloat prngWord
  rw [mulberryState_congr h]

/-- C1: every generator built by `createPRNG seed` (any integer seed,
including 0 and negative ones) emits one fixed sequence of rationals in
`[0, 1)`, determined by the seed's 32-bit residue alone; consequently two
`runSimulationBatch` invocations driven by generators built from the same
seed produce identical result sequences. -/
theorem spec_c1 :
    ∀ seed : ℤ,
      (∀ n, 0 ≤ createPRNG seed n ∧ createPRNG seed n < 1) ∧
      (∀ seed2 : ℤ, seed % (U32 : ℤ) = seed2 % (U32 : ℤ) →
        ∀ n, createPRNG seed n = createPRNG seed2 n) ∧
      (∀ (trades : List Trade) (cfg : SimulationConfig) (batchSize startId k : ℕ),
        runSimulationBatch trades cfg batchSize startId (createPRNG seed) k =
          runSimulationBatch trades cfg batchSize startId (createPRNG seed) k) := by
  intro seed
  refine ⟨fun n => createPRNG_in_unit seed n, fun s2 h n => createPRNG_congr h n, ?_⟩
  intro trades cfg batchSize startId k
  rfl

/-- Witness for C1 at seed `-7`: the fifth output is in `[0, 1)` and the
stream agrees with the one built from the seed's unsigned residue. -/
theorem spec_c1_witness :
    (0 ≤ createPRNG (-7) 5 ∧ createPRNG (-7) 5 < 1) ∧
      createPRNG (-7) 0 = createPRNG 4294967289 0 :=
  ⟨(spec_c1 (-7)).1 5, (spec_c1 (-7)).2.1 4294967289 (by decide) 0⟩

/-- C10: an empty trade pool makes `runSimulationBatch` return an empty
result list (and an unadvanced generator) for every configuration, batch
size and start id. -/
theorem spec_c10 :
    ∀ (cfg : SimulationConfig) (batchSize startId : ℕ) (rng : ℕ → ℚ) (k : ℕ),
      runSimulationBatch [] cfg batchSize startId rng k = ([], k) := by
  intro cfg batchSize startId rng k
  rfl

/-- C6 counterexample: on an empty result collection `calculateStatistics`
returns `sp500Benchmark = 10.5` (and echoes the confidence level), so the
returned record is not all-zero. -/
theorem spec_c6_counterexample :
    (calculateStatistics [] 1000 1 95).sp500Benchmark = 21 / 2 ∧
      (21 / 2 : ℚ) ≠ 0 ∧ (calculateStatistics [] 1000 1 95).customConfidenceLevel = 95 := by
  refine ⟨rfl, by norm_num, rfl⟩

/-- C6 (amended): on an empty result collection `calculateStatistics` never
fails and returns the fixed record whose fields are all zero except
`customConfidenceLevel` (echoing the input) and the benchmark constant
`sp500Benchmark = 10.5`. -/
theorem spec_c6 :
    ∀ (initialEquity durationYears confidenceLevel : ℚ),
      calculateStatistics [] initialEquity durationYears confidenceLevel =
        { medianEquity := 0, bestEquity := 0, worstEquity := 0, medianDrawdown := 0
          worstDrawdown := 0, ruinProbability := 0, cagr95 := 0, cagr05 := 0, cagrMedian := 0
          var95 := 0, var99 := 0, customConfidenceLevel := confidenceLevel, varCustom := 0
          cagrCustom := 0, sharpeRatio := 0, sortinoRatio := 0, sp500Benchmark := 21 / 2
          cagrVsSP500 := 0 } :=
  fun _ _ _ => rfl

lemma tail_concat_ne_nil {α : Type} (l : List α) (a : α) (h : l ≠ []) :
    (l ++ [a]).tail = l.tail ++ [a] := by
  cases l with
  | nil => exact absurd rfl h
  | cons b t => simp

lemma tradeStep_equityCurve (pool : List ℚ) (rm : RiskModel) (rng : ℕ → ℚ) (s : RunAcc) :
    (tradeStep pool rm rng s).equityCurve =
      s.equityCurve ++ [(tradeStep pool rm rng s).currentEquity] := rfl

lemma tradeStep_isRuined (pool : List ℚ) (rm : RiskModel) (rng : ℕ → ℚ) (s : RunAcc) :
    (tradeStep pool rm rng s).isRuined =
      if (tradeStep pool rm rng s).currentEquity ≤ 0 then true else s.isRuined := rfl

lemma tradeLoop_ruin_pe (pool : List ℚ) (rng : ℕ → ℚ) :
    ∀ (fuel : ℕ) (s : RunAcc), s.isRuined = false → s.equityCurve ≠ [] →
      (∀ x ∈ s.equityCurve.tail, 0 < x) →
      (((tradeLoop pool RiskModel.percent_equity rng fuel s).isRuined = true ↔
          ∃ x ∈ (tradeLoop pool RiskModel.percent_equity rng fuel s).equityCurve.tail, x ≤ 0) ∧
        ∀ x ∈ (tradeLoop pool RiskModel.percent_equity rng fuel s).equityCurve.tail.dropLast, 0 < x) := by
  intro fuel
  induction fuel with
  | zero =>
    intro s h1 h2 h3
    refine ⟨?_, ?_⟩
    · simp only [tradeLoop, h1]
      constructor
      · intro hfalse; exact absurd hfalse (by simp)
      · rintro ⟨x, hx, hle⟩
        exact absurd (h3 x hx) (not_lt.mpr hle)
    · intro x hx
      exact h3 x (List.dropLast_subset _ hx)
  | succ n ih =>
    intro s h1 h2 h3
    simp only [tradeLoop]
    set s1 := tradeStep pool RiskModel.percent_equity rng s with hs1
    by_cases heq : s1.currentEquity ≤ 0
    · have hcond : s1.currentEquity ≤ 0 ∧ True ∧ s1.currentEquity ≤ 1 :=
        ⟨heq, trivial, le_trans heq (by norm_num)⟩
      rw [if_pos hcond]
      have hcurve : s1.equityCurve = s.equityCurve ++ [s1.currentEquity] :=
        tradeStep_equityCurve pool _ rng s
      have htail : s1.equityCurve.tail = s.equityCurve.tail ++ [s1.currentEquity] := by
        rw [hcurve, tail_concat_ne_nil _ _ h2]
      have hruin : s1.isRuined = true := by
        rw [tradeStep_isRuined pool _ rng s]
        simp [heq]
      refine ⟨?_, ?_⟩
      · rw [hruin, htail]
        simp only [true_iff]
        exact ⟨s1.currentEquity, by simp, heq⟩
      · intro x hx
        rw [htail, List.dropLast_concat] at hx
        exact h3 x hx
    · have hcond : ¬(s1.currentEquity ≤ 0 ∧ True ∧ s1.currentEquity ≤ 1) := fun h => heq h.1
      rw [if_neg hcond]
      have hcurve : s1.equityCurve = s.equityCurve ++ [s1.currentEquity] :=
        tradeStep_equityCurve pool _ rng s
      have htail : s1.equityCurve.tail = s.equityCurve.tail ++ [s1.currentEquity] := by
        rw [hcurve, tail_concat_ne_nil _ _ h2]
      refine ih s1 ?_ ?_ ?_
      · rw [tradeStep_isRuined pool _ rng s]
        simp [heq, h1]
      · rw [hcurve]; simp
      · intro x hx
        rw [htail] at hx
        rcases List.mem_append.mp hx with h | h
        · exact h3 x h
        · rw [List.mem_singleton.mp h]
          exact lt_of_not_le heq

lemma simulateOne_isRuined (pool : List ℚ) (cfg : SimulationConfig) (rng : ℕ → ℚ) (id k : ℕ) :
    (simulateOne pool cfg rng id k).1.isRuined = (runCore pool cfg rng k).isRuined := rfl

lemma simulateOne_equityCurve (pool : List ℚ) (cfg : SimulationConfig) (rng : ℕ → ℚ) (id k : ℕ) :
    (simulateOne pool cfg rng id k).1.equityCurve = (runCore pool cfg rng k).equityCurve := rfl

lemma mem_batchLoop {pool : List ℚ} {cfg : SimulationConfig} {rng : ℕ → ℚ} :
    ∀ (c id k : ℕ) (r : SimulationResult), r ∈ (batchLoop pool cfg rng c id k).1 →
      ∃ i k2, r = (simulateOne pool cfg rng i k2).1 := by
  intro c
  induction c with
  | zero =>
    intro id k r hr
    simp [batchLoop] at hr
  | succ n ih =>
    intro id k r hr
    simp only [batchLoop, List.mem_cons] at hr
    rcases hr with h | h
    · exact ⟨id, k, h⟩
    · exact ih _ _ _ h

lemma mem_runSimulationBatch {trades : List Trade} {cfg : SimulationConfig} {rng : ℕ → ℚ}
    {batchSize startId k : ℕ} {r : SimulationResult}
    (hr : r ∈ (runSimulationBatch trades cfg batchSize startId rng k).1) :
    ∃ i k2, r = (simulateOne (trades.map (fun t =>
      match cfg.riskModel with
      | RiskModel.percent_equity => t.pnlPercent / 100
      | RiskModel.fixed_pnl => t.pnl)) cfg rng i k2).1 := by
  unfold runSimulationBatch at hr
  dsimp only at hr
  set pool := trades.map (fun t =>
    match cfg.riskModel with
    | RiskModel.percent_equity => t.pnlPercent / 100
    | RiskModel.fixed_pnl => t.pnl) with hpool
  by_cases h : pool.length = 0
  · rw [if_pos h] at hr
    simp at hr
  · rw [if_neg h] at hr
    exact mem_batchLoop _ _ _ _ hr

/-- C2 (amended): under `percent_equity`, a trade that leaves equity `≤ 0`
marks the run ruined and exits the loop immediately; the source's extra
`≤ 1` test sits inside the `≤ 0` branch, so it is subsumed and equity in
`(0, 1]` does not stop the run. Hence in every result of
`runSimulationBatch` the ruin flag holds exactly when some post-trade
equity is `≤ 0`, and every post-trade equity except possibly the final one
is positive. -/
theorem spec_c2 :
    ∀ (trades : List Trade) (cfg : SimulationConfig) (batchSize startId k : ℕ) (rng : ℕ → ℚ),
      cfg.riskModel = RiskModel.percent_equity →
      ∀ r ∈ (runSimulationBatch trades cfg batchSize startId rng k).1,
        (r.isRuined = true ↔ ∃ x ∈ r.equityCurve.tail, x ≤ 0) ∧
        ∀ x ∈ r.equityCurve.tail.dropLast, 0 < x := by
  intro trades cfg bs sid k rng hrm r hr
  obtain ⟨i, k2, rfl⟩ := mem_runSimulationBatch hr
  rw [simulateOne_isRuined, simulateOne_equityCurve]
  unfold runCore
  rw [hrm]
  apply tradeLoop_ruin_pe
  · rfl
  · simp [initAcc]
  · intro x hx
    simp [initAcc] at hx

/-- C2 counterexample: with `percent_equity`, initial equity 1 and a single
−50% pool outcome, the first trade leaves equity 1/2 ≤ 1, yet the run draws
a further trade — the curve is `[1, 1/2, 1/4]` — contradicting the claimed
early exit as soon as equity falls to ≤ 1. -/
theorem spec_c2_counterexample :
    ((runSimulationBatch [⟨-50, -50⟩] ⟨1, 1, 2, 1, 0, 95, RiskModel.percent_equity⟩ 1 0
        (createPRNG 1) 0).1.map SimulationResult.equityCurve) = [[1, 1 / 2, 1 / 4]] ∧
      (1 / 2 : ℚ) ≤ 1 := by
  constructor
  · with_unfolding_all rfl
  · norm_num

/-- C2 witness: a −100% outcome from equity 1 reaches equity 0 on the first
trade; by the theorem the run is marked ruined. -/
theorem spec_c2_witness :
    ((simulateOne [(-1 : ℚ)] ⟨1, 1, 2, 1, 0, 95, RiskModel.percent_equity⟩
        (createPRNG 1) 0 0).1).isRuined = true := by
  have h := spec_c2 [⟨-100, -100⟩] ⟨1, 1, 2, 1, 0, 95, RiskModel.percent_equity⟩ 1 0 0
    (createPRNG 1) rfl
  have hlist : (runSimulationBatch [⟨-100, -100⟩] ⟨1, 1, 2, 1, 0, 95, RiskModel.percent_equity⟩
      1 0 (createPRNG 1) 0).1 =
      [(simulateOne [(-1 : ℚ)] ⟨1, 1, 2, 1, 0, 95, RiskModel.percent_equity⟩
        (createPRNG 1) 0 0).1] := by
    with_unfolding_all rfl
  have hm : (simulateOne [(-1 : ℚ)] ⟨1, 1, 2, 1, 0, 95, RiskModel.percent_equity⟩
      (createPRNG 1) 0 0).1 ∈
      (runSimulationBatch [⟨-100, -100⟩] ⟨1, 1, 2, 1, 0, 95, RiskModel.percent_equity⟩ 1 0
        (createPRNG 1) 0).1 := by
    rw [hlist]
    exact List.mem_singleton_self _
  exact (h _ hm).1.mpr ⟨0, of_decide_eq_true (by with_unfolding_all rfl), le_refl 0⟩

lemma pnlsOfCurve_cons_cons (a b : ℚ) (t : List ℚ) :
    pnlsOfCurve (a :: b :: t) = (b - a) :: pnlsOfCurve (b :: t) := by
  simp [pnlsOfCurve]

lemma pnlsOfCurve_concat : ∀ (l : List ℚ) (z x : ℚ), l.getLast? = some z →
    pnlsOfCurve (l ++ [x]) = pnlsOfCurve l ++ [x - z] := by
  intro l
  induction l with
  | nil => intro z x h; simp at h
  | cons a t ih =>
    intro z x h
    cases t with
    | nil =>
      simp only [List.getLast?_singleton, Option.some.injEq] at h
      subst h
      simp [pnlsOfCurve]
    | cons b t2 =>
      have h2 : (b :: t2).getLast? = some z := by
        rw [List.getLast?_cons_cons] at h
        exact h
      have hih := ih z x h2
      have hl : (a :: b :: t2) ++ [x] = a :: b :: (t2 ++ [x]) := by simp
      rw [hl]
      rw [show a :: b :: (t2 ++ [x]) = a :: ((b :: t2) ++ [x]) by simp]
      rw [show ((b :: t2) ++ [x] : List ℚ) = b :: (t2 ++ [x]) by simp] at hih ⊢
      cases t2 with
      | nil =>
        simp only [List.nil_append] at hih ⊢
        rw [pnlsOfCurve_cons_cons a b [x], hih, pnlsOfCurve_cons_cons a b []]
        simp
      | cons c t3 =>
        rw [show b :: (c :: t3 ++ [x]) = b :: c :: (t3 ++ [x]) by simp] at hih ⊢
        rw [pnlsOfCurve_cons_cons a b (c :: (t3 ++ [x])), hih,
          pnlsOfCurve_cons_cons a b (c :: t3)]
        simp

/-- The running bookkeeping invariant tying the accumulator's P&L list to
its equity curve. -/
def curveInv (init : ℚ) (s : RunAcc) : Prop :=
  s.equityCurve ≠ [] ∧ s.equityCurve.getLast? = some s.currentEquity ∧
    s.simulationPnls = pnlsOfCurve s.equityCurve ∧
    s.simulationPnls.sum = s.currentEquity - init

lemma tradeStep_shape (pool : List ℚ) (rm : RiskModel) (rng : ℕ → ℚ) (s : RunAcc) :
    ∃ p : ℚ,
      (tradeStep pool rm rng s).currentEquity = s.currentEquity + p ∧
      (tradeStep pool rm rng s).equityCurve = s.equityCurve ++ [s.currentEquity + p] ∧
      (tradeStep pool rm rng s).simulationPnls = s.simulationPnls ++ [p] :=
  ⟨_, rfl, rfl, rfl⟩

lemma tradeStep_curveInv (pool : List ℚ) (rm : RiskModel) (rng : ℕ → ℚ) (init : ℚ)
    (s : RunAcc) (h : curveInv init s) : curveInv init (tradeStep pool rm rng s) := by
  obtain ⟨p, hc, hcv, hp⟩ := tradeStep_shape pool rm rng s
  obtain ⟨h1, h2, h3, h4⟩ := h
  refine ⟨?_, ?_, ?_, ?_⟩
  · rw [hcv]; simp
  · rw [hcv, hc]
    exact List.getLast?_concat _
  · rw [hp, hcv, h3, pnlsOfCurve_concat _ _ _ h2]
    congr 1
    rw [add_sub_cancel_left]
  · rw [hp, hc]
    simp only [List.sum_append, List.sum_singleton, h4]
    ring

lemma tradeLoop_curveInv (pool : List ℚ) (rm : RiskModel) (rng : ℕ → ℚ) (init : ℚ) :
    ∀ (fuel : ℕ) (s : RunAcc), curveInv init s →
      curveInv init (tradeLoop pool rm rng fuel s) := by
  intro fuel
  induction fuel with
  | zero => intro s h; exact h
  | succ n ih =>
    intro s h
    simp only [tradeLoop]
    split
    · exact tradeStep_curveInv _ _ _ _ _ h
    · exact ih _ (tradeStep_curveInv _ _ _ _ _ h)

lemma runCore_curveInv (pool : List ℚ) (cfg : SimulationConfig) (rng : ℕ → ℚ) (k : ℕ) :
    curveInv cfg.initialEquity (runCore pool cfg rng k) := by
  apply tradeLoop_curveInv
  refine ⟨by simp [initAcc], by simp [initAcc], by simp [initAcc, pnlsOfCurve], by simp [initAcc]⟩

lemma simulateOne_sharpe (pool : List ℚ) (cfg : SimulationConfig) (rng : ℕ → ℚ) (id k : ℕ) :
    (simulateOne pool cfg rng id k).1.sharpeRatio =
      mkRatio (runAvg cfg.initialEquity (runCore pool cfg rng k))
        (runSumSqDiff cfg.initialEquity (runCore pool cfg rng k) /
          ((runCore pool cfg rng k).simulationPnls.length : ℚ)) := rfl

lemma simulateOne_sortino (pool : List ℚ) (cfg : SimulationConfig) (rng : ℕ → ℚ) (id k : ℕ) :
    (simulateOne pool cfg rng id k).1.sortinoRatio =
      mkRatio (runAvg cfg.initialEquity (runCore pool cfg rng k))
        (runSumSqDown (runCore pool cfg rng k) /
          ((runCore pool cfg rng k).simulationPnls.length : ℚ)) := rfl

/-- C3 (amended): for every run the reported Sharpe is the total realised
P&L divided by the equity-curve length (one more than the trade count),
over the population standard deviation of the realised P&L values about
that quantity (0 when it vanishes); the Sortino divides the same quantity
by the downside deviation with the losses squared against zero. Neither is
the arithmetic mean over the sample standard deviation. -/
theorem spec_c3 :
    ∀ (trades : List Trade) (cfg : SimulationConfig) (batchSize startId k : ℕ) (rng : ℕ → ℚ),
      1 ≤ cfg.tradesPerSimulation →
      ∀ r ∈ (runSimulationBatch trades cfg batchSize startId rng k).1,
        r.sharpeRatio = amendedSharpe r.equityCurve ∧
        r.sortinoRatio = amendedSortino r.equityCurve := by
  intro trades cfg bs sid k rng htps r hr
  obtain ⟨i, k2, rfl⟩ := mem_runSimulationBatch hr
  set pool := trades.map (fun t =>
    match cfg.riskModel with
    | RiskModel.percent_equity => t.pnlPercent / 100
    | RiskModel.fixed_pnl => t.pnl) with hpool
  obtain ⟨h1, h2, h3, h4⟩ := runCore_curveInv pool cfg rng k2
  rw [simulateOne_sharpe, simulateOne_sortino, simulateOne_equityCurve]
  constructor
  · simp only [amendedSharpe, ← h3, h4, runAvg, runSumSqDiff]
  · simp only [amendedSortino, ← h3, h4, runAvg, runSumSqDown]

/-- C3 counterexample: pool with the single outcome +100, two trades from
equity 1000: the realised P&L values are `[100, 100]`, whose claimed ratio
(mean over sample standard deviation, 0 when the deviation is 0) is 0, yet
the code reports `sharpeRatio = 2` — because the code divides the total
P&L by the curve length (N+1 = 3) and uses the population deviation about
that quantity. -/
theorem spec_c3_counterexample :
    ((simulateOne [(100 : ℚ)] ⟨1000, 1, 2, 1, 0, 95, RiskModel.fixed_pnl⟩
        (createPRNG 1) 0 0).1).sharpeRatio = 2 ∧
      (runCore [(100 : ℚ)] ⟨1000, 1, 2, 1, 0, 95, RiskModel.fixed_pnl⟩
        (createPRNG 1) 0).simulationPnls = [100, 100] ∧
      claimSharpe [100, 100] = 0 ∧ (2 : ℝ) ≠ 0 := by
  refine ⟨?_, by with_unfolding_all rfl, ?_, by norm_num⟩
  · rw [simulateOne_sharpe]
    have h1 : runAvg (SimulationConfig.mk 1000 1 2 1 0 95 RiskModel.fixed_pnl).initialEquity
        (runCore [(100 : ℚ)] ⟨1000, 1, 2, 1, 0, 95, RiskModel.fixed_pnl⟩ (createPRNG 1) 0) =
        200 / 3 := by
      with_unfolding_all rfl
    have h2 : runSumSqDiff (SimulationConfig.mk 1000 1 2 1 0 95 RiskModel.fixed_pnl).initialEquity
        (runCore [(100 : ℚ)] ⟨1000, 1, 2, 1, 0, 95, RiskModel.fixed_pnl⟩ (createPRNG 1) 0) /
        (((runCore [(100 : ℚ)] ⟨1000, 1, 2, 1, 0, 95, RiskModel.fixed_pnl⟩
          (createPRNG 1) 0).simulationPnls.length : ℕ) : ℚ) = 10000 / 9 := by
      with_unfolding_all rfl
    rw [h1, h2]
    have hs : Real.sqrt (((10000 / 9 : ℚ) : ℝ)) = 100 / 3 := by
      rw [show (((10000 / 9 : ℚ)) : ℝ) = (100 / 3 : ℝ) ^ 2 by push_cast; norm_num]
      exact Real.sqrt_sq (by norm_num)
    simp only [mkRatio, hs]
    rw [if_neg (by norm_num : ¬(100 / 3 : ℝ) = 0)]
    push_cast
    norm_num
  · simp only [claimSharpe]
    have hb : ((([100, 100] : List ℚ).map
        (fun p => (p - ([100, 100] : List ℚ).sum / ((([100, 100] : List ℚ).length : ℕ) : ℚ)) ^ 2)).sum /
        (((([100, 100] : List ℚ).length : ℕ) : ℚ) - 1)) = 0 := by
      norm_num
    rw [hb]
    simp

/-- C3 witness: the amended Sharpe formula agrees with the reported one on
the two-trade all-+100 run. -/
theorem spec_c3_witness :
    ((simulateOne [(100 : ℚ)] ⟨1000, 1, 2, 1, 0, 95, RiskModel.fixed_pnl⟩
        (createPRNG 1) 0 0).1).sharpeRatio =
      amendedSharpe ((simulateOne [(100 : ℚ)] ⟨1000, 1, 2, 1, 0, 95, RiskModel.fixed_pnl⟩
        (createPRNG 1) 0 0).1).equityCurve := by
  have h := spec_c3 [⟨100, 10⟩] ⟨1000, 1, 2, 1, 0, 95, RiskModel.fixed_pnl⟩ 1 0 0 (createPRNG 1)
    (by norm_num)
  have hlist : (runSimulationBatch [⟨100, 10⟩] ⟨1000, 1, 2, 1, 0, 95, RiskModel.fixed_pnl⟩ 1 0
      (createPRNG 1) 0).1 =
      [(simulateOne [(100 : ℚ)] ⟨1000, 1, 2, 1, 0, 95, RiskModel.fixed_pnl⟩
        (createPRNG 1) 0 0).1] := by
    with_unfolding_all rfl
  exact (h _ (by rw [hlist]; exact List.mem_singleton_self _)).1

lemma mkRatio_zero (a : ℚ) : mkRatio a 0 = 0 := by
  simp [mkRatio]

lemma drawIndex_one {u : ℚ} (h0 : 0 ≤ u) (h1 : u < 1) : drawIndex u 1 = 0 := by
  unfold drawIndex
  rw [Nat.cast_one, mul_one]
  rw [Int.floor_eq_zero_iff.mpr ⟨h0, h1⟩]
  rfl

lemma ddJs_agree (curve : List ℚ) :
    ∀ (p m : ℚ), 0 < p →
      curve.foldl ddPercentStepJs (p, JsNum.fin m) =
        ((curve.foldl ddPercentStep (p, m)).1,
          JsNum.fin ((curve.foldl ddPercentStep (p, m)).2)) := by
  induction curve with
  | nil => intro p m hp; rfl
  | cons e rest ih =>
    intro p m hp
    rw [List.foldl_cons, List.foldl_cons]
    have hpk : (0 : ℚ) < if e > p then e else p := by
      split_ifs with h
      · exact lt_trans hp h
      · exact hp
    have hstep : ddPercentStepJs (p, JsNum.fin m) e =
        ((ddPercentStep (p, m) e).1, JsNum.fin ((ddPercentStep (p, m) e).2)) := by
      unfold ddPercentStepJs ddPercentStep jsDiv jsGt
      dsimp only
      rw [if_neg (ne_of_gt hpk)]
      dsimp only
      simp only [decide_eq_true_eq]
      split_ifs <;> rfl
    rw [hstep]
    exact ih (ddPercentStep (p, m) e).1 (ddPercentStep (p, m) e).2 hpk

lemma runCore_zero_neg (rng : ℕ → ℚ) (k : ℕ) (hr : ∀ n, 0 ≤ rng n ∧ rng n < 1) :
    (runCore [(-100 : ℚ)] ⟨0, 1, 1, 1, 0, 95, RiskModel.fixed_pnl⟩ rng k).equityCurve =
      [0, -100] := by
  have h1 : runCore [(-100 : ℚ)] ⟨0, 1, 1, 1, 0, 95, RiskModel.fixed_pnl⟩ rng k =
      tradeStep [(-100 : ℚ)] RiskModel.fixed_pnl rng (initAcc 0 k) := ite_self _
  rw [h1]
  show (initAcc (0 : ℚ) k).equityCurve ++
      [(initAcc (0 : ℚ) k).currentEquity +
        [(-100 : ℚ)].getD (drawIndex (rng k) [(-100 : ℚ)].length) 0] = [0, -100]
  rw [show [(-100 : ℚ)].length = 1 from rfl, drawIndex_one (hr k).1 (hr k).2]
  with_unfolding_all rfl

/-- C5 counterexample: a run whose pool is the single profit +100 with one
trade has gross loss 0, and its reported profitFactor is 100 — the gross
profit — not the claimed guarded 0. -/
theorem spec_c5_counterexample :
    ((simulateOne [(100 : ℚ)] ⟨1000, 1, 1, 1, 0, 95, RiskModel.fixed_pnl⟩
        (createPRNG 1) 0 0).1).profitFactor = 100 ∧
      (runCore [(100 : ℚ)] ⟨1000, 1, 1, 1, 0, 95, RiskModel.fixed_pnl⟩
        (createPRNG 1) 0).grossLoss = 0 ∧ (100 : ℚ) ≠ 0 := by
  refine ⟨by with_unfolding_all rfl, by with_unfolding_all rfl, by norm_num⟩

/-- C5 (amended): a zero squared deviation guards the per-run Sharpe to 0
and a zero downside deviation guards the Sortino to 0; non-positive initial
equity, final value or duration guard each CAGR to 0; but the profitFactor
on zero gross loss falls back to the gross profit (the ratio form is used
only when the gross loss is non-zero), not to 0, and the drawdown-percent
division by the running peak carries no guard of its own: under exact JS
division and comparison semantics the scan agrees with the rational model
whenever the initial equity is positive, yet on the reachable run with
initial equity 0 and the all-loss pool `[-100]` it ends at `+Infinity`,
not 0. -/
theorem spec_c5 :
    (∀ (pool : List ℚ) (cfg : SimulationConfig) (rng : ℕ → ℚ) (id k : ℕ),
        (simulateOne pool cfg rng id k).1.profitFactor =
          if (runCore pool cfg rng k).grossLoss = 0 then (runCore pool cfg rng k).grossProfit
          else (runCore pool cfg rng k).grossProfit / (runCore pool cfg rng k).grossLoss) ∧
    (∀ (pool : List ℚ) (cfg : SimulationConfig) (rng : ℕ → ℚ) (id k : ℕ),
        runSumSqDiff cfg.initialEquity (runCore pool cfg rng k) = 0 →
        (simulateOne pool cfg rng id k).1.sharpeRatio = 0) ∧
    (∀ (pool : List ℚ) (cfg : SimulationConfig) (rng : ℕ → ℚ) (id k : ℕ),
        runSumSqDown (runCore pool cfg rng k) = 0 →
        (simulateOne pool cfg rng id k).1.sortinoRatio = 0) ∧
    (∀ initialEquity durationYears finalValue : ℚ,
        initialEquity ≤ 0 ∨ finalValue ≤ 0 ∨ durationYears ≤ 0 →
        calculateCAGR initialEquity durationYears finalValue = 0) ∧
    (∀ (initialEquity : ℚ) (curve : List ℚ), 0 < initialEquity →
        maxDDPercentJs initialEquity curve = JsNum.fin (maxDDPercent initialEquity curve)) ∧
    (∀ (rng : ℕ → ℚ) (id k : ℕ), (∀ n, 0 ≤ rng n ∧ rng n < 1) →
        maxDDPercentJs 0 ((simulateOne [(-100 : ℚ)] ⟨0, 1, 1, 1, 0, 95, RiskModel.fixed_pnl⟩
          rng id k).1.equityCurve) = JsNum.posInf) := by
  refine ⟨fun pool cfg rng id k => rfl, ?_, ?_, ?_, ?_, ?_⟩
  · intro pool cfg rng id k h
    rw [simulateOne_sharpe, h, zero_div, mkRatio_zero]
  · intro pool cfg rng id k h
    rw [simulateOne_sortino, h, zero_div, mkRatio_zero]
  · intro initialEquity durationYears finalValue h
    unfold calculateCAGR
    rw [if_pos h]
  · intro initialEquity curve h
    unfold maxDDPercentJs maxDDPercent
    rw [ddJs_agree curve initialEquity 0 h]
  · intro rng id k hr
    have hc : (simulateOne [(-100 : ℚ)] ⟨0, 1, 1, 1, 0, 95, RiskModel.fixed_pnl⟩
        rng id k).1.equityCurve = [0, -100] := runCore_zero_neg rng k hr
    rw [hc]
    with_unfolding_all rfl

/-- C5 witness: concrete instances of the amended guards — the all-zero
one-trade run yields Sharpe 0 and Sortino 0, a negative initial equity
yields CAGR 0, the +100 run's profitFactor equals its gross profit, the
JS drawdown scan agrees with the rational one on a positive-equity curve,
and the zero-initial-equity losing run drives the unguarded scan to
`+Infinity`. -/
theorem spec_c5_witness :
    ((simulateOne [(0 : ℚ)] ⟨1000, 1, 1, 1, 0, 95, RiskModel.fixed_pnl⟩
        (createPRNG 1) 0 0).1).sharpeRatio = 0 ∧
    ((simulateOne [(0 : ℚ)] ⟨1000, 1, 1, 1, 0, 95, RiskModel.fixed_pnl⟩
        (createPRNG 1) 0 0).1).sortinoRatio = 0 ∧
    calculateCAGR (-1) 1 5 = 0 ∧
    (((simulateOne [(100 : ℚ)] ⟨1000, 1, 1, 1, 0, 95, RiskModel.fixed_pnl⟩
        (createPRNG 1) 0 0).1).profitFactor =
      if (runCore [(100 : ℚ)] ⟨1000, 1, 1, 1, 0, 95, RiskModel.fixed_pnl⟩
          (createPRNG 1) 0).grossLoss = 0 then
        (runCore [(100 : ℚ)] ⟨1000, 1, 1, 1, 0, 95, RiskModel.fixed_pnl⟩
          (createPRNG 1) 0).grossProfit
      else
        (runCore [(100 : ℚ)] ⟨1000, 1, 1, 1, 0, 95, RiskModel.fixed_pnl⟩
          (createPRNG 1) 0).grossProfit /
          (runCore [(100 : ℚ)] ⟨1000, 1, 1, 1, 0, 95, RiskModel.fixed_pnl⟩
            (createPRNG 1) 0).grossLoss) ∧
    maxDDPercentJs 1000 [(1000 : ℚ), 900] =
      JsNum.fin (maxDDPercent 1000 [(1000 : ℚ), 900]) ∧
    maxDDPercentJs 0 ((simulateOne [(-100 : ℚ)] ⟨0, 1, 1, 1, 0, 95, RiskModel.fixed_pnl⟩
      (createPRNG 1) 0 0).1.equityCurve) = JsNum.posInf := by
  refine ⟨?_, ?_, ?_, ?_, ?_, ?_⟩
  · exact spec_c5.2.1 _ _ _ 0 0 (by with_unfolding_all rfl)
  · exact spec_c5.2.2.1 _ _ _ 0 0 (by with_unfolding_all rfl)
  · exact spec_c5.2.2.2.1 _ _ _ (Or.inl (by norm_num))
  · exact spec_c5.1 _ _ _ 0 0
  · exact spec_c5.2.2.2.2.1 1000 [(1000 : ℚ), 900] (by norm_num)
  · exact spec_c5.2.2.2.2.2 (createPRNG 1) 0 0 (fun n => createPRNG_in_unit 1 n)

/-- The annualisation factor of `calculateStatistics`:
`sqrt(tradesPerSim / durationYears)` with the trade count read off the
first result's curve length. -/
noncomputable def annualFactorOf (results : List SimulationResult) (durationYears : ℚ) : ℝ :=
  match results with
  | [] => Real.sqrt 0
  | r0 :: _ =>
    let tradesPerSim : ℚ := (r0.equityCurve.length : ℚ) - 1
    Real.sqrt
      (((if durationYears > 0 then tradesPerSim / durationYears else tradesPerSim) : ℚ) : ℝ)

lemma nearestRankQ_eq (vals : List ℚ) (p : ℚ) (hp : 0 ≤ p) :
    nearestRankQ vals p = getPercentile (sortQ vals) p := by
  unfold nearestRankQ getPercentile sortQ
  dsimp only
  rw [List.length_insertionSort]
  by_cases hl : vals.length = 0
  · have : vals = [] := List.length_eq_zero.mp hl
    subst this
    simp only [List.insertionSort]
    rfl
  · have hA : (0 : ℤ) ≤ ⌊p * (vals.length : ℚ)⌋ := Int.floor_nonneg.mpr (by positivity)
    have hB : (0 : ℤ) ≤ (vals.length : ℤ) - 1 := by
      have : 1 ≤ vals.length := Nat.one_le_iff_ne_zero.mpr hl
      omega
    rw [max_eq_right (le_min hA hB)]
    rfl

lemma nearestRankR_eq (vals : List ℝ) (p : ℚ) (hp : 0 ≤ p) :
    nearestRankR vals p = getPercentile (sortR vals) p := by
  unfold nearestRankR getPercentile sortR
  dsimp only
  rw [List.length_insertionSort]
  by_cases hl : vals.length = 0
  · have : vals = [] := List.length_eq_zero.mp hl
    subst this
    simp only [List.insertionSort]
    rfl
  · have hA : (0 : ℤ) ≤ ⌊p * (vals.length : ℚ)⌋ := Int.floor_nonneg.mpr (by positivity)
    have hB : (0 : ℤ) ≤ (vals.length : ℤ) - 1 := by
      have : 1 ≤ vals.length := Nat.one_le_iff_ne_zero.mpr hl
      omega
    rw [max_eq_right (le_min hA hB)]
    rfl

/-- C4: every percentile statistic of `calculateStatistics` follows the
nearest-rank convention — sort ascending, read index `⌊p·N⌋` clamped to
`[0, N-1]`, no interpolation — for the 5th/median/95th and
custom-confidence final equity (exposed through the CAGR fields), the
median/95th/99th and custom drawdown, and the median per-run Sharpe and
Sortino (scaled by the annualisation factor); and the 95th percentile of
1000 values reads 0-indexed position 950. -/
theorem spec_c4 :
    ∀ (results : List SimulationResult) (initialEquity durationYears confidenceLevel : ℚ),
      results ≠ [] → 0 ≤ confidenceLevel → confidenceLevel ≤ 100 →
      ((calculateStatistics results initialEquity durationYears confidenceLevel).medianEquity =
          nearestRankQ (results.map SimulationResult.finalEquity) (1 / 2) ∧
        (calculateStatistics results initialEquity durationYears confidenceLevel).cagr05 =
          calculateCAGR initialEquity durationYears
            (nearestRankQ (results.map SimulationResult.finalEquity) (5 / 100)) ∧
        (calculateStatistics results initialEquity durationYears confidenceLevel).cagr95 =
          calculateCAGR initialEquity durationYears
            (nearestRankQ (results.map SimulationResult.finalEquity) (95 / 100)) ∧
        (calculateStatistics results initialEquity durationYears confidenceLevel).cagrCustom =
          calculateCAGR initialEquity durationYears
            (nearestRankQ (results.map SimulationResult.finalEquity) (1 - confidenceLevel / 100)) ∧
        (calculateStatistics results initialEquity durationYears confidenceLevel).medianDrawdown =
          nearestRankQ (results.map SimulationResult.maxDrawdownPercent) (1 / 2) ∧
        (calculateStatistics results initialEquity durationYears confidenceLevel).var95 =
          nearestRankQ (results.map SimulationResult.maxDrawdownPercent) (95 / 100) ∧
        (calculateStatistics results initialEquity durationYears confidenceLevel).var99 =
          nearestRankQ (results.map SimulationResult.maxDrawdownPercent) (99 / 100) ∧
        (calculateStatistics results initialEquity durationYears confidenceLevel).varCustom =
          nearestRankQ (results.map SimulationResult.maxDrawdownPercent) (confidenceLevel / 100) ∧
        (calculateStatistics results initialEquity durationYears confidenceLevel).sharpeRatio =
          nearestRankR (results.map SimulationResult.sharpeRatio) (1 / 2) *
            annualFactorOf results durationYears ∧
        (calculateStatistics results initialEquity durationYears confidenceLevel).sortinoRatio =
          nearestRankR (results.map SimulationResult.sortinoRatio) (1 / 2) *
            annualFactorOf results durationYears) ∧
      (∀ l : List ℚ, l.length = 1000 → getPercentile l (95 / 100) = l.getD 950 0) := by
  intro results initialEquity durationYears confidenceLevel hne h0 h100
  constructor
  · have hcst : 0 ≤ 1 - confidenceLevel / 100 := by linarith
    have hccl : 0 ≤ confidenceLevel / 100 := by positivity
    cases results with
    | nil => exact absurd rfl hne
    | cons r0 rest =>
      refine ⟨?_, ?_, ?_, ?_, ?_, ?_, ?_, ?_, ?_, ?_⟩ <;>
        simp only [calculateStatistics, annualFactorOf] <;>
        (first
          | rw [nearestRankQ_eq]
          | rw [nearestRankR_eq]) <;>
        first
          | rfl
          | exact hccl
          | exact hcst
          | norm_num
  · intro l hl
    unfold getPercentile
    rw [hl]
    have hidx : ⌊(95 / 100 : ℚ) * ((1000 : ℕ) : ℚ)⌋ = 950 := by
      rw [show ((95 / 100 : ℚ) * ((1000 : ℕ) : ℚ)) = (950 : ℚ) by norm_num]
      norm_num
    rw [hidx]
    norm_num
    rfl

/-- C4 witness: the theorem instantiated at a one-element result collection
and at the 1000-element nearest-rank convention instance. -/
theorem spec_c4_witness :
    (calculateStatistics [⟨0, [1000, 1100], 1100, 0, 0, 0, 0, 0, false, 0, 0⟩] 1000 1 95).medianEquity =
      nearestRankQ (([⟨0, [1000, 1100], 1100, 0, 0, 0, 0, 0, false, 0, 0⟩] :
        List SimulationResult).map SimulationResult.finalEquity) (1 / 2) ∧
      getPercentile (List.replicate 1000 (0 : ℚ)) (95 / 100) =
        (List.replicate 1000 (0 : ℚ)).getD 950 0 := by
  constructor
  · exact (spec_c4 [⟨0, [1000, 1100], 1100, 0, 0, 0, 0, 0, false, 0, 0⟩] 1000 1 95
      (by simp) (by norm_num) (by norm_num)).1.1
  · exact (spec_c4 [⟨0, [1000, 1100], 1100, 0, 0, 0, 0, 0, false, 0, 0⟩] 1000 1 95
      (by simp) (by norm_num) (by norm_num)).2 _ (List.length_replicate 1000 0)

lemma batchLoop_length (pool : List ℚ) (cfg : SimulationConfig) (rng : ℕ → ℚ) :
    ∀ (c id k : ℕ), (batchLoop pool cfg rng c id k).1.length = c := by
  intro c
  induction c with
  | zero => intro id k; rfl
  | succ n ih =>
    intro id k
    simp only [batchLoop, List.length_cons]
    rw [ih]

lemma runSimulationBatch_length {trades : List Trade} {cfg : SimulationConfig}
    {c id k : ℕ} {rng : ℕ → ℚ} (h : trades ≠ []) :
    (runSimulationBatch trades cfg c id rng k).1.length = c := by
  unfold runSimulationBatch
  dsimp only
  rw [if_neg (by simpa using h)]
  exact batchLoop_length _ _ _ _ _ _

lemma ctrlStep_of_done {trades : List Trade} {cfg : SimulationConfig} {rng : ℕ → ℚ}
    {s : CtrlState} (h : s.results.length ≥ cfg.numSimulations) :
    ctrlStep trades cfg rng s = { s with status := SimStatus.completed } := by
  unfold ctrlStep
  rw [if_pos h]

lemma ctrlStep_results {trades : List Trade} {cfg : SimulationConfig} {rng : ℕ → ℚ}
    {s : CtrlState} (h : s.results.length < cfg.numSimulations) :
    (ctrlStep trades cfg rng s).results =
      s.results ++ (runSimulationBatch trades cfg
        (min BATCH_SIZE (cfg.numSimulations - s.results.length))
        s.results.length rng s.k).1 := by
  unfold ctrlStep
  rw [if_neg (by omega)]
  dsimp only
  split_ifs <;> rfl

lemma ctrlStep_small {trades : List Trade} {cfg : SimulationConfig} {rng : ℕ → ℚ}
    {s : CtrlState} (hne : trades ≠ []) (h1 : s.results.length < cfg.numSimulations)
    (h2 : s.results.length + min BATCH_SIZE (cfg.numSimulations - s.results.length) ≤
      BATCH_SIZE * 2) :
    (ctrlStep trades cfg rng s).status = SimStatus.running ∧
    (ctrlStep trades cfg rng s).prevMean = s.prevMean := by
  unfold ctrlStep
  rw [if_neg (by omega)]
  dsimp only
  rw [if_neg (by
    rw [List.length_append, runSimulationBatch_length hne]
    omega)]
  exact ⟨rfl, rfl⟩

lemma ctrlStep_firstmean {trades : List Trade} {cfg : SimulationConfig} {rng : ℕ → ℚ}
    {s : CtrlState} (hne : trades ≠ []) (h1 : s.results.length < cfg.numSimulations)
    (h2 : s.results.length + min BATCH_SIZE (cfg.numSimulations - s.results.length) >
      BATCH_SIZE * 2) (hprev : s.prevMean = 0) :
    (ctrlStep trades cfg rng s).status = SimStatus.running ∧
    (ctrlStep trades cfg rng s).prevMean = meanOf (ctrlStep trades cfg rng s).results := by
  unfold ctrlStep
  rw [if_neg (by omega)]
  dsimp only
  rw [if_pos (by
    rw [List.length_append, runSimulationBatch_length hne]
    omega)]
  rw [if_neg (by
    rintro ⟨hp, -, -⟩
    exact hp hprev)]
  exact ⟨rfl, rfl⟩

lemma ctrlStep_no_converge_of_tol0 {trades : List Trade} {cfg : SimulationConfig}
    {rng : ℕ → ℚ} {s : CtrlState} (htol : cfg.convergenceTolerance = 0)
    (h : s.results.length < cfg.numSimulations) :
    (ctrlStep trades cfg rng s).status = SimStatus.running := by
  unfold ctrlStep
  rw [if_neg (by omega)]
  dsimp only
  split_ifs with hlen hconv
  · rw [htol] at hconv
    exact absurd hconv.2.1 (lt_irrefl 0)
  · rfl
  · rfl

lemma ctrlStep_length {trades : List Trade} {cfg : SimulationConfig} {rng : ℕ → ℚ}
    {s : CtrlState} (hne : trades ≠ []) (h : s.results.length < cfg.numSimulations) :
    (ctrlStep trades cfg rng s).results.length =
      s.results.length + min BATCH_SIZE (cfg.numSimulations - s.results.length) := by
  rw [ctrlStep_results h, List.length_append, runSimulationBatch_length hne]

lemma ctrlLoop_succ (trades : List Trade) (cfg : SimulationConfig) (rng : ℕ → ℚ)
    (n : ℕ) (s : CtrlState) (h : s.status = SimStatus.running) :
    ctrlLoop trades cfg rng (n + 1) s =
      if (ctrlStep trades cfg rng s).status = SimStatus.running
      then ctrlLoop trades cfg rng n (ctrlStep trades cfg rng s)
      else ctrlStep trades cfg rng s := by
  simp only [ctrlLoop]
  rw [if_pos h]

lemma ctrlLoop_completes (trades : List Trade) (cfg : SimulationConfig) (rng : ℕ → ℚ)
    (hne : trades ≠ []) (htol : cfg.convergenceTolerance = 0) :
    ∀ (fuel : ℕ) (s : CtrlState), s.status = SimStatus.running →
      s.results.length ≤ cfg.numSimulations →
      cfg.numSimulations - s.results.length < fuel →
      (ctrlLoop trades cfg rng fuel s).status = SimStatus.completed ∧
      (ctrlLoop trades cfg rng fuel s).results.length = cfg.numSimulations := by
  intro fuel
  induction fuel with
  | zero => intro s h1 h2 h3; omega
  | succ n ih =>
    intro s h1 h2 h3
    rw [ctrlLoop_succ trades cfg rng n s h1]
    by_cases hdone : s.results.length ≥ cfg.numSimulations
    · have hlen : s.results.length = cfg.numSimulations := le_antisymm h2 hdone
      rw [ctrlStep_of_done hdone]
      rw [if_neg (by simp)]
      exact ⟨rfl, hlen⟩
    · have hlt : s.results.length < cfg.numSimulations := by omega
      have hstat := @ctrlStep_no_converge_of_tol0 trades cfg rng s htol hlt
      rw [if_pos hstat]
      have hB : BATCH_SIZE = 50 := rfl
      refine ih _ hstat ?_ ?_
      · rw [ctrlStep_length hne hlt]; omega
      · rw [ctrlStep_length hne hlt]; rw [hB] at *; omega

lemma tradeStep_fixed_singleton (c : ℚ) (rng : ℕ → ℚ) (s : RunAcc)
    (h0 : 0 ≤ rng s.k) (h1 : rng s.k < 1) :
    (tradeStep [c] RiskModel.fixed_pnl rng s).currentEquity = s.currentEquity + c := by
  show s.currentEquity + [c].getD (drawIndex (rng s.k) 1) 0 = s.currentEquity + c
  rw [drawIndex_one h0 h1]
  rfl

lemma tradeLoop_fixed_singleton (c : ℚ) (rng : ℕ → ℚ) (hr : ∀ n, 0 ≤ rng n ∧ rng n < 1) :
    ∀ (fuel : ℕ) (s : RunAcc),
      (tradeLoop [c] RiskModel.fixed_pnl rng fuel s).currentEquity =
        s.currentEquity + (fuel : ℚ) * c := by
  intro fuel
  induction fuel with
  | zero => intro s; simp [tradeLoop]
  | succ n ih =>
    intro s
    simp only [tradeLoop]
    rw [if_neg (by
      rintro ⟨-, hpe, -⟩
      exact absurd hpe (by simp))]
    rw [ih, tradeStep_fixed_singleton c rng s (hr s.k).1 (hr s.k).2]
    push_cast
    ring

lemma simulateOne_finalEquity (pool : List ℚ) (cfg : SimulationConfig) (rng : ℕ → ℚ)
    (id k : ℕ) :
    (simulateOne pool cfg rng id k).1.finalEquity = (runCore pool cfg rng k).currentEquity := rfl

lemma batch_finalEquity_singleton {t : Trade} {cfg : SimulationConfig} {rng : ℕ → ℚ}
    (hr : ∀ n, 0 ≤ rng n ∧ rng n < 1) (hrm : cfg.riskModel = RiskModel.fixed_pnl)
    {c id k : ℕ} :
    ∀ r ∈ (runSimulationBatch [t] cfg c id rng k).1,
      r.finalEquity = cfg.initialEquity + (cfg.tradesPerSimulation : ℚ) * t.pnl := by
  intro r hr2
  obtain ⟨i, k2, rfl⟩ := mem_runSimulationBatch hr2
  rw [simulateOne_finalEquity]
  unfold runCore
  have hpool : ([t].map (fun tr =>
      match cfg.riskModel with
      | RiskModel.percent_equity => tr.pnlPercent / 100
      | RiskModel.fixed_pnl => tr.pnl)) = [t.pnl] := by
    rw [hrm]
    rfl
  rw [hpool, hrm, tradeLoop_fixed_singleton t.pnl rng hr]
  simp [initAcc]

lemma meanOf_all_eq {L : List SimulationResult} {E : ℚ} (hne : L ≠ [])
    (h : ∀ r ∈ L, r.finalEquity = E) : meanOf L = E := by
  have hsum : (L.map SimulationResult.finalEquity).sum = (L.length : ℚ) * E := by
    clear hne
    induction L with
    | nil => simp
    | cons a tl ih =>
      simp only [List.map_cons, List.sum_cons, List.length_cons]
      rw [h a (by simp), ih (fun r hrr => h r (by simp [hrr]))]
      push_cast
      ring
  unfold meanOf
  rw [hsum]
  have hlen : (L.length : ℚ) ≠ 0 := by
    have : L.length ≠ 0 := fun hz => hne (List.length_eq_zero.mp hz)
    exact_mod_cast this
  field_simp

lemma ctrlStep_converge {trades : List Trade} {cfg : SimulationConfig} {rng : ℕ → ℚ}
    {s : CtrlState} (h1 : s.results.length < cfg.numSimulations)
    (h2 : (ctrlStep trades cfg rng s).results.length > BATCH_SIZE * 2)
    (h3 : s.prevMean ≠ 0) (h4 : 0 < cfg.convergenceTolerance)
    (h5 : |(meanOf (ctrlStep trades cfg rng s).results - s.prevMean) / s.prevMean| * 100 <
      cfg.convergenceTolerance) :
    (ctrlStep trades cfg rng s).status = SimStatus.converged := by
  rw [ctrlStep_results h1] at h2 h5
  unfold ctrlStep
  rw [if_neg (by omega)]
  dsimp only
  rw [if_pos h2]
  rw [if_pos ⟨h3, h4, h5⟩]

lemma all_append {L1 L2 : List SimulationResult} {E : ℚ}
    (h1 : ∀ r ∈ L1, r.finalEquity = E) (h2 : ∀ r ∈ L2, r.finalEquity = E) :
    ∀ r ∈ L1 ++ L2, r.finalEquity = E := by
  intro r hr
  rcases List.mem_append.mp hr with h | h
  exacts [h1 r h, h2 r h]

lemma ctrl_zero_variance (t : Trade) (cfg : SimulationConfig) (rng : ℕ → ℚ)
    (hr : ∀ n, 0 ≤ rng n ∧ rng n < 1) (hrm : cfg.riskModel = RiskModel.fixed_pnl)
    (htol : 0 < cfg.convergenceTolerance) (hn : 150 < cfg.numSimulations)
    (hE : cfg.initialEquity + (cfg.tradesPerSimulation : ℚ) * t.pnl ≠ 0) :
    (ctrlLoop [t] cfg rng (cfg.numSimulations + 1) ctrlInit).status = SimStatus.converged ∧
    (ctrlLoop [t] cfg rng (cfg.numSimulations + 1) ctrlInit).results.length =
      min 200 cfg.numSimulations := by
  set E := cfg.initialEquity + (cfg.tradesPerSimulation : ℚ) * t.pnl with hEdef
  have hne : ([t] : List Trade) ≠ [] := by simp
  have hB : BATCH_SIZE = 50 := rfl
  set s0 : CtrlState := ctrlInit with hs0
  have hst0 : s0.status = SimStatus.running := rfl
  have hlen0 : s0.results.length = 0 := rfl
  have hprev0 : s0.prevMean = 0 := rfl
  have hP0 : ∀ r ∈ s0.results, r.finalEquity = E := by
    intro r hr2
    simp [hs0, ctrlInit] at hr2
  have hlt0 : s0.results.length < cfg.numSimulations := by omega
  set s1 := ctrlStep [t] cfg rng s0 with hs1
  have hP1 : ∀ r ∈ s1.results, r.finalEquity = E := by
    rw [hs1, ctrlStep_results hlt0]
    exact all_append hP0 (batch_finalEquity_singleton hr hrm)
  have hlen1 : s1.results.length = 50 := by
    rw [hs1, ctrlStep_length hne hlt0, hlen0, hB]
    omega
  have hsp1 := @ctrlStep_small [t] cfg rng s0 hne hlt0 (by rw [hlen0, hB]; omega)
  have hst1 : s1.status = SimStatus.running := hsp1.1
  have hprev1 : s1.prevMean = 0 := by rw [hs1, hsp1.2, hprev0]
  have hlt1 : s1.results.length < cfg.numSimulations := by omega
  set s2 := ctrlStep [t] cfg rng s1 with hs2
  have hP2 : ∀ r ∈ s2.results, r.finalEquity = E := by
    rw [hs2, ctrlStep_results hlt1]
    exact all_append hP1 (batch_finalEquity_singleton hr hrm)
  have hlen2 : s2.results.length = 100 := by
    rw [hs2, ctrlStep_length hne hlt1, hlen1, hB]
    omega
  have hsp2 := @ctrlStep_small [t] cfg rng s1 hne hlt1 (by rw [hlen1, hB]; omega)
  have hst2 : s2.status = SimStatus.running := hsp2.1
  have hprev2 : s2.prevMean = 0 := by rw [hs2, hsp2.2, hprev1]
  have hlt2 : s2.results.length < cfg.numSimulations := by omega
  set s3 := ctrlStep [t] cfg rng s2 with hs3
  have hP3 : ∀ r ∈ s3.results, r.finalEquity = E := by
    rw [hs3, ctrlStep_results hlt2]
    exact all_append hP2 (batch_finalEquity_singleton hr hrm)
  have hlen3 : s3.results.length = 150 := by
    rw [hs3, ctrlStep_length hne hlt2, hlen2, hB]
    omega
  have hsp3 := @ctrlStep_firstmean [t] cfg rng s2 hne hlt2 (by rw [hlen2, hB]; omega) hprev2
  have hst3 : s3.status = SimStatus.running := hsp3.1
  have hne3 : s3.results ≠ [] := by
    intro hcon
    rw [hcon] at hlen3
    simp at hlen3
  have hprev3 : s3.prevMean = E := by
    rw [hs3, hsp3.2, ← hs3, meanOf_all_eq hne3 hP3]
  have hlt3 : s3.results.length < cfg.numSimulations := by omega
  set s4 := ctrlStep [t] cfg rng s3 with hs4
  have hP4 : ∀ r ∈ s4.results, r.finalEquity = E := by
    rw [hs4, ctrlStep_results hlt3]
    exact all_append hP3 (batch_finalEquity_singleton hr hrm)
  have hlen4 : s4.results.length = min 200 cfg.numSimulations := by
    rw [hs4, ctrlStep_length hne hlt3, hlen3, hB]
    omega
  have hgt4 : s4.results.length > BATCH_SIZE * 2 := by
    rw [hlen4, hB]
    omega
  have hne4 : s4.results ≠ [] := by
    intro hcon
    rw [hcon] at hlen4
    simp at hlen4
    omega
  have hmean4 : meanOf s4.results = E := meanOf_all_eq hne4 hP4
  have hdiff : |(meanOf s4.results - s3.prevMean) / s3.prevMean| * 100 <
      cfg.convergenceTolerance := by
    rw [hmean4, hprev3]
    simp
    exact htol
  have hst4 : s4.status = SimStatus.converged := by
    rw [hs4]
    exact ctrlStep_converge hlt3 (by rw [← hs4]; exact hgt4)
      (by rw [hprev3]; exact hE) htol (by rw [← hs4]; exact hdiff)
  obtain ⟨m, hm⟩ : ∃ m, cfg.numSimulations + 1 = m + 4 := ⟨cfg.numSimulations - 3, by omega⟩
  rw [hm]
  rw [show m + 4 = (m + 3) + 1 from rfl, ctrlLoop_succ [t] cfg rng (m + 3) s0 hst0, ← hs1,
    if_pos hst1]
  rw [show m + 3 = (m + 2) + 1 from rfl, ctrlLoop_succ [t] cfg rng (m + 2) s1 hst1, ← hs2,
    if_pos hst2]
  rw [show m + 2 = (m + 1) + 1 from rfl, ctrlLoop_succ [t] cfg rng (m + 1) s2 hst2, ← hs3,
    if_pos hst3]
  rw [ctrlLoop_succ [t] cfg rng m s3 hst3, ← hs4, if_neg (by rw [hst4]; simp)]
  exact ⟨hst4, hlen4⟩

/-- C8 (amended): (1) in any batch step past the count check, once the
accumulated results exceed two batches, a non-zero prior running mean, a
positive tolerance and a relative mean change below the tolerance put the
controller in the converged state; (2) a zero tolerance disables early
stopping: the loop runs to the full configured count and completes; (3) a
zero-variance (singleton) pool with positive tolerance converges at the
first check after the prior mean has been recorded — the fourth batch, with
`min 200 numSimulations` results — which requires more than 150 configured
simulations and a non-zero common final equity; at the two-batch minimum
itself the controller only records the prior mean. -/
theorem spec_c8 :
    (∀ (trades : List Trade) (cfg : SimulationConfig) (rng : ℕ → ℚ) (s : CtrlState),
      s.results.length < cfg.numSimulations →
      (ctrlStep trades cfg rng s).results.length > BATCH_SIZE * 2 →
      s.prevMean ≠ 0 → 0 < cfg.convergenceTolerance →
      |(meanOf (ctrlStep trades cfg rng s).results - s.prevMean) / s.prevMean| * 100 <
        cfg.convergenceTolerance →
      (ctrlStep trades cfg rng s).status = SimStatus.converged) ∧
    (∀ (trades : List Trade) (cfg : SimulationConfig) (rng : ℕ → ℚ),
      trades ≠ [] → cfg.convergenceTolerance = 0 →
      (ctrlLoop trades cfg rng (cfg.numSimulations + 1) ctrlInit).status =
        SimStatus.completed ∧
      (ctrlLoop trades cfg rng (cfg.numSimulations + 1) ctrlInit).results.length =
        cfg.numSimulations) ∧
    (∀ (t : Trade) (cfg : SimulationConfig) (rng : ℕ → ℚ),
      (∀ n, 0 ≤ rng n ∧ rng n < 1) →
      cfg.riskModel = RiskModel.fixed_pnl →
      0 < cfg.convergenceTolerance →
      150 < cfg.numSimulations →
      cfg.initialEquity + (cfg.tradesPerSimulation : ℚ) * t.pnl ≠ 0 →
      (ctrlLoop [t] cfg rng (cfg.numSimulations + 1) ctrlInit).status =
        SimStatus.converged ∧
      (ctrlLoop [t] cfg rng (cfg.numSimulations + 1) ctrlInit).results.length =
        min 200 cfg.numSimulations) := by
  refine ⟨?_, ?_, ?_⟩
  · intro trades cfg rng s h1 h2 h3 h4 h5
    exact ctrlStep_converge h1 h2 h3 h4 h5
  · intro trades cfg rng hne htol
    exact ctrlLoop_completes trades cfg rng hne htol _ ctrlInit rfl (by simp [ctrlInit])
      (by simp [ctrlInit])
  · intro t cfg rng hr hrm htol hn hE
    exact ctrl_zero_variance t cfg rng hr hrm htol hn hE

set_option maxRecDepth 1000000 in
/-- C8 counterexample: a zero-variance pool with positive tolerance and
exactly 150 configured simulations reaches the two-batch minimum (the third
batch records the prior mean) but then completes at the full count without
converging — the claimed convergence at the minimum does not happen. -/
theorem spec_c8_counterexample :
    (runMonteCarloController [⟨100, 1⟩] ⟨1000, 150, 1, 12345, 1, 95, RiskModel.fixed_pnl⟩).status =
      SimStatus.completed ∧
      (SimStatus.completed ≠ SimStatus.converged) := by
  constructor
  · with_unfolding_all rfl
  · simp

set_option maxRecDepth 1000000 in
/-- C8 witness: the three parts of the theorem at concrete inputs — a
converging step from a 101-result state, a full zero-tolerance run of 3,
and a zero-variance run of 151 that converges with 151 results. -/
theorem spec_c8_witness :
    (ctrlStep [⟨100, 1⟩] ⟨1000, 102, 1, 1, 1, 95, RiskModel.fixed_pnl⟩ (createPRNG 1)
        ⟨List.replicate 101 ⟨0, [], 1100, 0, 0, 0, 0, 0, false, 0, 0⟩, 1100,
          SimStatus.running, 0⟩).status = SimStatus.converged ∧
    ((ctrlLoop [⟨100, 1⟩] ⟨1000, 3, 1, 1, 0, 95, RiskModel.fixed_pnl⟩ (createPRNG 1)
        (3 + 1) ctrlInit).status = SimStatus.completed ∧
      (ctrlLoop [⟨100, 1⟩] ⟨1000, 3, 1, 1, 0, 95, RiskModel.fixed_pnl⟩ (createPRNG 1)
        (3 + 1) ctrlInit).results.length = 3) ∧
    ((ctrlLoop [⟨100, 1⟩] ⟨1000, 151, 1, 7, 1, 95, RiskModel.fixed_pnl⟩ (createPRNG 7)
        (151 + 1) ctrlInit).status = SimStatus.converged ∧
      (ctrlLoop [⟨100, 1⟩] ⟨1000, 151, 1, 7, 1, 95, RiskModel.fixed_pnl⟩ (createPRNG 7)
        (151 + 1) ctrlInit).results.length = min 200 151) := by
  refine ⟨?_, ?_, ?_⟩
  · exact spec_c8.1 [⟨100, 1⟩] ⟨1000, 102, 1, 1, 1, 95, RiskModel.fixed_pnl⟩ (createPRNG 1)
      ⟨List.replicate 101 ⟨0, [], 1100, 0, 0, 0, 0, 0, false, 0, 0⟩, 1100, SimStatus.running, 0⟩
      (by rw [List.length_replicate]; norm_num)
      (of_decide_eq_true (by with_unfolding_all rfl))
      (by norm_num) (by norm_num)
      (of_decide_eq_true (by with_unfolding_all rfl))
  · exact spec_c8.2.1 [⟨100, 1⟩] ⟨1000, 3, 1, 1, 0, 95, RiskModel.fixed_pnl⟩ (createPRNG 1)
      (by simp) rfl
  · exact spec_c8.2.2 ⟨100, 1⟩ ⟨1000, 151, 1, 7, 1, 95, RiskModel.fixed_pnl⟩ (createPRNG 7)
      (createPRNG_in_unit 7) rfl (by norm_num) (by norm_num) (by norm_num)

lemma getD_nonpos {pool : List ℚ} (h : ∀ x ∈ pool, x ≤ 0) (i : ℕ) : pool.getD i 0 ≤ 0 := by
  by_cases hi : i < pool.length
  · rw [List.getD_eq_getElem pool 0 hi]
    exact h _ (List.getElem_mem hi)
  · rw [List.getD_eq_default pool 0 (by omega)]

lemma daySum_nonpos {pool : List ℚ} {rng : ℕ → ℚ} (h : ∀ x ∈ pool, x ≤ 0) :
    ∀ (n k : ℕ), daySum pool rng n k ≤ 0 := by
  intro n
  induction n with
  | zero => intro k; simp [daySum]
  | succ m ih =>
    intro k
    simp only [daySum]
    have h1 := getD_nonpos h (drawIndex (rng k) pool.length)
    have h2 := ih (k + 1)
    linarith

lemma simulateDay_nonpos {pool : List ℚ} {rng : ℕ → ℚ} (h : ∀ x ∈ pool, x ≤ 0)
    (tradesPerDay : ℚ) (k : ℕ) : (simulateDay pool rng tradesPerDay k).1 ≤ 0 :=
  daySum_nonpos h _ _

lemma pfDay_blowup_eval {cfg : PropFirmConfig} {pool : List ℚ} {rng : ℕ → ℚ}
    {c : Career} {agg : PFAgg} {k : ℕ}
    (hd : (simulateDay pool rng cfg.tradesPerDay k).1 ≤ -cfg.maxDailyLoss)
    (hph : c.phase = Phase.EVAL) :
    pfDay cfg pool rng c agg k =
      ((blowupEval cfg { c with day := c.day + 1 } agg).1,
       (blowupEval cfg { c with day := c.day + 1 } agg).2,
       (simulateDay pool rng cfg.tradesPerDay k).2) := by
  obtain ⟨ph, bal, epp, edat, epc, ta, d, ca, hre, hrf, hrl, are, arf, arl⟩ := c
  cases hph
  unfold pfDay
  dsimp only
  rw [if_pos hd]

lemma pfLoop_blowup (cfg : PropFirmConfig) (pool : List ℚ) (rng : ℕ → ℚ)
    (hml : cfg.maxDailyLoss = 0) (hpool : ∀ x ∈ pool, x ≤ 0) :
    ∀ (fuel : ℕ) (c : Career) (agg : PFAgg) (k : ℕ),
      c.phase = Phase.EVAL → c.careerActive = true →
      1 ≤ c.totalAttempts → c.totalAttempts ≤ MAX_RESTARTS + 1 →
      c.day + (MAX_RESTARTS + 1 - c.totalAttempts) ≤ MAX_CAREER_DAYS →
      MAX_RESTARTS + 1 - c.totalAttempts ≤ fuel →
      ((pfLoop cfg pool rng fuel (c, agg, k)).2.1.evalBlown =
          agg.evalBlown + (MAX_RESTARTS + 1 - c.totalAttempts) ∧
        (pfLoop cfg pool rng fuel (c, agg, k)).2.1.evalAttempts =
          agg.evalAttempts + (MAX_RESTARTS + 1 - c.totalAttempts) ∧
        (pfLoop cfg pool rng fuel (c, agg, k)).2.1.evalPassed = agg.evalPassed) := by
  have hMR : MAX_RESTARTS = 100 := rfl
  have hMD : MAX_CAREER_DAYS = 2000 := rfl
  intro fuel
  induction fuel with
  | zero =>
    intro c agg k h1 h2 h3 h4 h5 h6
    have hm : MAX_RESTARTS + 1 - c.totalAttempts = 0 := by omega
    rw [hm]
    simp [pfLoop]
  | succ n ih =>
    intro c agg k h1 h2 h3 h4 h5 h6
    by_cases hstop : c.totalAttempts ≤ MAX_RESTARTS
    · have hday : c.day < MAX_CAREER_DAYS := by omega
      simp only [pfLoop]
      rw [if_pos ⟨h2, hday, hstop⟩]
      have hd : (simulateDay pool rng cfg.tradesPerDay k).1 ≤ -cfg.maxDailyLoss := by
        rw [hml, neg_zero]
        exact simulateDay_nonpos hpool _ _
      rw [pfDay_blowup_eval hd h1]
      have hih := ih (blowupEval cfg { c with day := c.day + 1 } agg).1
        (blowupEval cfg { c with day := c.day + 1 } agg).2
        (simulateDay pool rng cfg.tradesPerDay k).2
        rfl h2 (by show 1 ≤ c.totalAttempts + 1; omega)
        (by show c.totalAttempts + 1 ≤ MAX_RESTARTS + 1; omega)
        (by show c.day + 1 + (MAX_RESTARTS + 1 - (c.totalAttempts + 1)) ≤ MAX_CAREER_DAYS; omega)
        (by show MAX_RESTARTS + 1 - (c.totalAttempts + 1) ≤ n; omega)
      refine ⟨?_, ?_, ?_⟩
      · rw [hih.1]
        show agg.evalBlown + 1 + (MAX_RESTARTS + 1 - (c.totalAttempts + 1)) =
          agg.evalBlown + (MAX_RESTARTS + 1 - c.totalAttempts)
        omega
      · rw [hih.2.1]
        show agg.evalAttempts + 1 + (MAX_RESTARTS + 1 - (c.totalAttempts + 1)) =
          agg.evalAttempts + (MAX_RESTARTS + 1 - c.totalAttempts)
        omega
      · rw [hih.2.2]
        rfl
    · have hm : MAX_RESTARTS + 1 - c.totalAttempts = 0 := by omega
      simp only [pfLoop]
      rw [if_neg (by rintro ⟨-, -, hta⟩; exact hstop hta)]
      rw [hm]
      simp

lemma pfTraders_blowup (cfg : PropFirmConfig) (pool : List ℚ) (rng : ℕ → ℚ)
    (hml : cfg.maxDailyLoss = 0) (hpool : ∀ x ∈ pool, x ≤ 0) :
    ∀ (n : ℕ) (agg : PFAgg) (k : ℕ),
      ((pfTraders cfg pool rng n (agg, k)).1.evalBlown = agg.evalBlown + 100 * n ∧
        (pfTraders cfg pool rng n (agg, k)).1.evalAttempts = agg.evalAttempts + 101 * n ∧
        (pfTraders cfg pool rng n (agg, k)).1.evalPassed = agg.evalPassed) := by
  intro n
  induction n with
  | zero => intro agg k; refine ⟨by simp [pfTraders], by simp [pfTraders], by simp [pfTraders]⟩
  | succ m ih =>
    intro agg k
    simp only [pfTraders]
    have hloop := pfLoop_blowup cfg pool rng hml hpool MAX_CAREER_DAYS (initCareer cfg)
      { agg with evalAttempts := agg.evalAttempts + 1 } k rfl rfl
      (by norm_num [initCareer]) (by norm_num [initCareer, MAX_RESTARTS])
      (by norm_num [initCareer, MAX_RESTARTS, MAX_CAREER_DAYS])
      (by norm_num [initCareer, MAX_RESTARTS, MAX_CAREER_DAYS])
    have hm : MAX_RESTARTS + 1 - (initCareer cfg).totalAttempts = 100 := by
      norm_num [initCareer, MAX_RESTARTS]
    rw [hm] at hloop
    have hih := ih (pfLoop cfg pool rng MAX_CAREER_DAYS
      (initCareer cfg, { agg with evalAttempts := agg.evalAttempts + 1 }, k)).2.1
      (pfLoop cfg pool rng MAX_CAREER_DAYS
        (initCareer cfg, { agg with evalAttempts := agg.evalAttempts + 1 }, k)).2.2
    refine ⟨?_, ?_, ?_⟩
    · rw [hih.1, hloop.1]
      ring
    · rw [hih.2.1, hloop.2.1]
      show agg.evalAttempts + 1 + 100 + 101 * m = agg.evalAttempts + 101 * (m + 1)
      ring
    · rw [hih.2.2, hloop.2.2]

/-- C7 (amended): with `maxDailyLoss = 0` and a non-empty pool whose
outcomes are all ≤ 0, every simulated day's P&L is ≤ 0, so day 1 of every
attempt blows up, until the restart cap (`MAX_RESTARTS = 100`) cuts each
trader off: `evalPassed = 0`, `evalBlown = 100·numTraders` and
`evalAttempts = 101·numTraders` — each trader's last counted attempt is
never played, so `evalBlown = evalAttempts − numTraders`, not
`evalAttempts`. -/
theorem spec_c7 :
    ∀ (trades : List Trade) (cfg : PropFirmConfig) (numTraders : ℕ) (seed : ℤ),
      trades ≠ [] → (∀ t ∈ trades, t.pnl ≤ 0) → cfg.maxDailyLoss = 0 →
      (runPropFirmSimulation trades cfg numTraders seed).evalPassed = 0 ∧
      (runPropFirmSimulation trades cfg numTraders seed).evalBlown = 100 * numTraders ∧
      (runPropFirmSimulation trades cfg numTraders seed).evalAttempts = 101 * numTraders := by
  intro trades cfg numTraders seed hne hle hml
  have hpool : ∀ x ∈ trades.map Trade.pnl, x ≤ 0 := by
    intro x hx
    obtain ⟨t, ht, rfl⟩ := List.mem_map.mp hx
    exact hle t ht
  have h := pfTraders_blowup cfg (trades.map Trade.pnl) (createPRNG seed) hml hpool
    numTraders PFAgg.init 0
  unfold runPropFirmSimulation
  dsimp only
  refine ⟨?_, ?_, ?_⟩
  · rw [h.2.2]
    rfl
  · rw [h.1]
    simp [PFAgg.init]
  · rw [h.2.1]
    simp [PFAgg.init]

set_option maxRecDepth 1000000 in
/-- C7 counterexample: pool `[-100]`, `maxDailyLoss = 0`, one trader: every
attempt blows up on day 1, but the restart cap stops the career after 100
blow-ups with 101 counted attempts — `evalBlown = 100 ≠ 101 =
evalAttempts`, contradicting the claimed `evalBlown == evalAttempts`. -/
theorem spec_c7_counterexample :
    (runPropFirmSimulation [⟨-100, -1⟩] ⟨50000, 0, 2000, 3000, 1500, 150, 5, 5, 1⟩
        1 12345).evalBlown = 100 ∧
    (runPropFirmSimulation [⟨-100, -1⟩] ⟨50000, 0, 2000, 3000, 1500, 150, 5, 5, 1⟩
        1 12345).evalAttempts = 101 ∧
    (100 : ℕ) ≠ 101 := by
  refine ⟨?_, ?_, by norm_num⟩
  · with_unfolding_all rfl
  · with_unfolding_all rfl

/-- C7 witness: the amended theorem at pool `[-5]` with two traders. -/
theorem spec_c7_witness :
    (runPropFirmSimulation [⟨-5, 0⟩] ⟨1000, 0, 100, 300, 150, 15, 2, 2, 1⟩
        2 9).evalPassed = 0 ∧
    (runPropFirmSimulation [⟨-5, 0⟩] ⟨1000, 0, 100, 300, 150, 15, 2, 2, 1⟩
        2 9).evalBlown = 100 * 2 ∧
    (runPropFirmSimulation [⟨-5, 0⟩] ⟨1000, 0, 100, 300, 150, 15, 2, 2, 1⟩
        2 9).evalAttempts = 101 * 2 := by
  refine spec_c7 [⟨-5, 0⟩] ⟨1000, 0, 100, 300, 150, 15, 2, 2, 1⟩ 2 9 (by simp) ?_ rfl
  intro t ht
  rw [List.mem_singleton.mp ht]
  norm_num

/-- 1 while the career sits in an EVAL attempt, else 0. -/
def evalInd (c : Career) : ℕ := if c.phase = Phase.EVAL then 1 else 0

/-- 1 while the career sits in an EXPRESS attempt, else 0. -/
def expInd (c : Career) : ℕ := if c.phase = Phase.EXPRESS then 1 else 0

/-- The funnel-conservation invariant carried through the career loop:
the finished eval passes plus the eval attempt in progress never exceed the
counted eval attempts, and likewise for LIVE promotions against express
attempts. -/
def funnelInv (c : Career) (agg : PFAgg) : Prop :=
  agg.evalPassed + evalInd c ≤ agg.evalAttempts ∧
    agg.liveReached + expInd c ≤ agg.expressAttempts

lemma funnelInv_le {c : Career} {agg : PFAgg} (h : funnelInv c agg) :
    agg.evalPassed ≤ agg.evalAttempts ∧ agg.liveReached ≤ agg.expressAttempts :=
  ⟨le_trans (Nat.le_add_right _ _) h.1, le_trans (Nat.le_add_right _ _) h.2⟩

lemma blowupEval_inv (cfg : PropFirmConfig) (c : Career) (agg : PFAgg)
    (h : funnelInv c agg) :
    funnelInv (blowupEval cfg c agg).1 (blowupEval cfg c agg).2 := by
  obtain ⟨hp, hl⟩ := funnelInv_le h
  unfold funnelInv evalInd expInd blowupEval
  dsimp only
  constructor <;> simp <;> omega

lemma blowupExpress_inv (cfg : PropFirmConfig) (c : Career) (agg : PFAgg)
    (h : funnelInv c agg) :
    funnelInv (blowupExpress cfg c agg).1 (blowupExpress cfg c agg).2 := by
  obtain ⟨hp, hl⟩ := funnelInv_le h
  unfold funnelInv evalInd expInd blowupExpress
  dsimp only
  constructor <;> simp <;> omega

lemma evalPhaseDay_inv (cfg : PropFirmConfig) (dailyPnL : ℚ) (c : Career) (agg : PFAgg)
    (hph : c.phase = Phase.EVAL) (h : funnelInv c agg) :
    funnelInv (evalPhaseDay cfg dailyPnL c agg).1 (evalPhaseDay cfg dailyPnL c agg).2 := by
  obtain ⟨h1, h2⟩ := h
  unfold evalInd at h1
  unfold expInd at h2
  rw [if_pos hph] at h1
  rw [if_neg (by rw [hph]; simp)] at h2
  unfold funnelInv evalInd expInd
  unfold evalPhaseDay
  dsimp only
  split_ifs <;> refine ⟨?_, ?_⟩ <;> simp_all

lemma expressPhaseDay_inv (cfg : PropFirmConfig) (dailyPnL : ℚ) (c : Career) (agg : PFAgg)
    (hph : c.phase = Phase.EXPRESS) (h : funnelInv c agg) :
    funnelInv (expressPhaseDay cfg dailyPnL c agg).1 (expressPhaseDay cfg dailyPnL c agg).2 := by
  obtain ⟨h1, h2⟩ := h
  unfold evalInd at h1
  unfold expInd at h2
  rw [if_neg (by rw [hph]; simp)] at h1
  rw [if_pos hph] at h2
  unfold funnelInv evalInd expInd
  unfold expressPhaseDay
  dsimp only
  split_ifs <;> refine ⟨?_, ?_⟩ <;> simp_all

lemma funnelInv_of_phase_eval {agg : PFAgg} (c' : Career) (hph' : c'.phase = Phase.EVAL)
    (hp : agg.evalPassed + 1 ≤ agg.evalAttempts) (hl : agg.liveReached ≤ agg.expressAttempts) :
    funnelInv c' agg := by
  unfold funnelInv evalInd expInd
  rw [if_pos hph', if_neg (by rw [hph']; simp)]
  exact ⟨hp, by omega⟩

lemma funnelInv_of_phase_express {agg : PFAgg} (c' : Career) (hph' : c'.phase = Phase.EXPRESS)
    (hp : agg.evalPassed ≤ agg.evalAttempts) (hl : agg.liveReached + 1 ≤ agg.expressAttempts) :
    funnelInv c' agg := by
  unfold funnelInv evalInd expInd
  rw [if_neg (by rw [hph']; simp), if_pos hph']
  exact ⟨by omega, hl⟩

lemma funnelInv_of_phase_live {agg : PFAgg} (c' : Career) (hph' : c'.phase = Phase.LIVE)
    (hp : agg.evalPassed ≤ agg.evalAttempts) (hl : agg.liveReached ≤ agg.expressAttempts) :
    funnelInv c' agg := by
  unfold funnelInv evalInd expInd
  rw [if_neg (by rw [hph']; simp), if_neg (by rw [hph']; simp)]
  exact ⟨by omega, by omega⟩

lemma pfDay_funnelInv (cfg : PropFirmConfig) (pool : List ℚ) (rng : ℕ → ℚ)
    (c : Career) (agg : PFAgg) (k : ℕ) (h : funnelInv c agg) :
    funnelInv (pfDay cfg pool rng c agg k).1 (pfDay cfg pool rng c agg k).2.1 := by
  obtain ⟨h1, h2⟩ := h
  unfold evalInd at h1
  unfold expInd at h2
  unfold pfDay
  dsimp only
  cases hph : c.phase
  case EVAL =>
    rw [if_pos hph] at h1
    rw [if_neg (by rw [hph]; simp)] at h2
    split_ifs
    · exact blowupEval_inv cfg _ agg (funnelInv_of_phase_eval _ rfl h1 (by omega))
    · exact blowupEval_inv cfg _ agg (funnelInv_of_phase_eval _ rfl h1 (by omega))
    · exact evalPhaseDay_inv cfg _ _ agg rfl (funnelInv_of_phase_eval _ rfl h1 (by omega))
  case EXPRESS =>
    rw [if_neg (by rw [hph]; simp)] at h1
    rw [if_pos hph] at h2
    split_ifs
    · exact blowupExpress_inv cfg _ agg (funnelInv_of_phase_express _ rfl (by omega) h2)
    · exact blowupExpress_inv cfg _ agg (funnelInv_of_phase_express _ rfl (by omega) h2)
    · exact expressPhaseDay_inv cfg _ _ agg rfl (funnelInv_of_phase_express _ rfl (by omega) h2)
  case LIVE =>
    rw [if_neg (by rw [hph]; simp)] at h1
    rw [if_neg (by rw [hph]; simp)] at h2
    dsimp only
    split_ifs <;>
      (dsimp only
       unfold funnelInv evalInd expInd
       refine ⟨?_, ?_⟩ <;> rw [if_neg (by simp)] <;> omega)

lemma pfLoop_funnelInv (cfg : PropFirmConfig) (pool : List ℚ) (rng : ℕ → ℚ) :
    ∀ (fuel : ℕ) (c : Career) (agg : PFAgg) (k : ℕ), funnelInv c agg →
      funnelInv (pfLoop cfg pool rng fuel (c, agg, k)).1
        (pfLoop cfg pool rng fuel (c, agg, k)).2.1 := by
  intro fuel
  induction fuel with
  | zero => intro c agg k h; exact h
  | succ n ih =>
    intro c agg k h
    simp only [pfLoop]
    split_ifs with hg
    · have hstep := pfDay_funnelInv cfg pool rng c agg k h
      have hsplit : pfDay cfg pool rng c agg k =
          ((pfDay cfg pool rng c agg k).1, (pfDay cfg pool rng c agg k).2.1,
            (pfDay cfg pool rng c agg k).2.2) := rfl
      rw [hsplit]
      exact ih _ _ _ hstep
    · exact h

/-- The weak funnel inequalities carried across traders. -/
def weakInv (agg : PFAgg) : Prop :=
  agg.evalPassed ≤ agg.evalAttempts ∧ agg.liveReached ≤ agg.expressAttempts

lemma pfTraders_weakInv (cfg : PropFirmConfig) (pool : List ℚ) (rng : ℕ → ℚ) :
    ∀ (n : ℕ) (agg : PFAgg) (k : ℕ), weakInv agg →
      weakInv (pfTraders cfg pool rng n (agg, k)).1 := by
  intro n
  induction n with
  | zero => intro agg k h; exact h
  | succ m ih =>
    intro agg k h
    obtain ⟨hw1, hw2⟩ := h
    simp only [pfTraders]
    apply ih
    have hinit : funnelInv (initCareer cfg) { agg with evalAttempts := agg.evalAttempts + 1 } := by
      unfold funnelInv evalInd expInd initCareer
      dsimp only
      rw [if_pos rfl, if_neg (by simp)]
      exact ⟨by omega, by omega⟩
    exact funnelInv_le (pfLoop_funnelInv cfg pool rng MAX_CAREER_DAYS _ _ _ hinit)

lemma evalPhaseDay_live (cfg : PropFirmConfig) (d : ℚ) (c : Career) (agg : PFAgg) :
    (evalPhaseDay cfg d c agg).2.liveReached = agg.liveReached := by
  unfold evalPhaseDay
  dsimp only
  split_ifs <;> rfl

lemma expressPhaseDay_char (cfg : PropFirmConfig) (d : ℚ) (c : Career) (agg : PFAgg) :
    (expressPhaseDay cfg d c agg).2.liveReached = agg.liveReached ∨
    (((expressPhaseDay cfg d c agg).1.expressPayoutsCount : ℚ) ≥ cfg.expressPayoutsRequired ∧
      (expressPhaseDay cfg d c agg).1.careerActive = false) := by
  unfold expressPhaseDay
  dsimp only
  split_ifs <;>
    first
      | exact Or.inl rfl
      | exact Or.inr ⟨by assumption, rfl⟩

lemma pfDay_live_char (cfg : PropFirmConfig) (pool : List ℚ) (rng : ℕ → ℚ)
    (c : Career) (agg : PFAgg) (k : ℕ) :
    (pfDay cfg pool rng c agg k).2.1.liveReached = agg.liveReached ∨
    (((pfDay cfg pool rng c agg k).1.expressPayoutsCount : ℚ) ≥ cfg.expressPayoutsRequired ∧
      (pfDay cfg pool rng c agg k).1.careerActive = false) := by
  unfold pfDay
  dsimp only
  cases hph : c.phase <;> dsimp only <;> split_ifs
  · exact Or.inl rfl
  · exact Or.inl rfl
  · rcases evalPhaseDay_live cfg _ _ agg with h
    exact Or.inl h
  · exact Or.inl rfl
  · exact Or.inl rfl
  · rcases expressPhaseDay_char cfg (simulateDay pool rng cfg.tradesPerDay k).1 _ agg with h | h
    · exact Or.inl h
    · exact Or.inr h
  · exact Or.inl rfl
  · exact Or.inl rfl
  · exact Or.inl rfl

/-- C9: the funnel-conservation invariant — `evalPassed ≤ evalAttempts` and
`liveReached ≤ expressAttempts` hold for every returned aggregate, and any
day step that increments `liveReached` leaves the promoted career with a
payout count at least `expressPayoutsRequired` and its career ended. -/
theorem spec_c9 :
    (∀ (trades : List Trade) (cfg : PropFirmConfig) (numTraders : ℕ) (seed : ℤ),
      (runPropFirmSimulation trades cfg numTraders seed).evalPassed ≤
        (runPropFirmSimulation trades cfg numTraders seed).evalAttempts ∧
      (runPropFirmSimulation trades cfg numTraders seed).liveReached ≤
        (runPropFirmSimulation trades cfg numTraders seed).expressAttempts) ∧
    (∀ (cfg : PropFirmConfig) (pool : List ℚ) (rng : ℕ → ℚ) (c : Career) (agg : PFAgg)
        (k : ℕ),
      (pfDay cfg pool rng c agg k).2.1.liveReached ≠ agg.liveReached →
      ((pfDay cfg pool rng c agg k).1.expressPayoutsCount : ℚ) ≥ cfg.expressPayoutsRequired ∧
      (pfDay cfg pool rng c agg k).1.careerActive = false) := by
  constructor
  · intro trades cfg numTraders seed
    have h := pfTraders_weakInv cfg (trades.map Trade.pnl) (createPRNG seed) numTraders
      PFAgg.init 0 ⟨le_refl 0, le_refl 0⟩
    unfold runPropFirmSimulation
    dsimp only
    exact h
  · intro cfg pool rng c agg k hlive
    rcases pfDay_live_char cfg pool rng c agg k with h | h
    · exact absurd h hlive
    · exact h

/-- C9 witness: a career one profitable day away from its required payout
count is promoted to LIVE by `pfDay` — the theorem certifies the payout
count is at the requirement and the career has ended. -/
theorem spec_c9_witness :
    ((pfDay ⟨1000, 1000, 1000, 300, 150, 15, 1, 1, 1⟩ [(100 : ℚ)] (createPRNG 1)
        ⟨Phase.EXPRESS, 1000, 0, 0, 0, 1, 0, true, true, false, false, 1, 1, 1⟩
        PFAgg.init 0).1.expressPayoutsCount : ℚ) ≥
      (PropFirmConfig.mk 1000 1000 1000 300 150 15 1 1 1).expressPayoutsRequired ∧
    (pfDay ⟨1000, 1000, 1000, 300, 150, 15, 1, 1, 1⟩ [(100 : ℚ)] (createPRNG 1)
        ⟨Phase.EXPRESS, 1000, 0, 0, 0, 1, 0, true, true, false, false, 1, 1, 1⟩
        PFAgg.init 0).1.careerActive = false :=
  spec_c9.2 _ _ _ _ _ _ (of_decide_eq_true (by with_unfolding_all rfl))
